import Mathlib

/-!
# Verification of the Firestore export pipeline

A shallow embedding, in Lean 4, of the core logic of the
`Export-from-firestore` tool: value/type inference and document
transformation (`src/lib/transformers.js`), the JSON and SQL artifact
generators (`src/lib/jsonExporter.js`, `src/lib/sqlExporter.js`), the
collection collector / traversal engine (`src/lib/collector.js`) and the
checkpointed export driver (`src/index.js`).

Modelling conventions, used throughout:

* JavaScript strings are modelled by Lean `String` (equivalently
  `List Char`); JS `length` / code-unit counting coincides with
  `String.length` on BMP strings, which is the domain of interest.
* JS numbers (IEEE doubles) are modelled by `ℚ` for the finite values
  plus a distinguished non-finite value; the operations the source
  performs on numbers (`Number.isFinite`, `Number.isInteger`, ordered
  comparison with integer bounds) are exactly representable on this model.
  The ECMAScript number-to-string rendering is abstracted as a fixed
  deterministic function `qToString`; no claim depends on its exact form.
* JS objects are modelled as insertion-ordered association lists, with
  assignment `o[k] = v` modelled as in-place update of an existing key or
  append of a new one, matching the property-order semantics the source
  relies on (no key produced by the source is an integer-like key).
* `Date.toISOString` renderings are carried as opaque strings.
-/

/-! ## SQL column types and schema widening (`src/lib/transformers.js`) -/

/-- The SQL column types produced by `transformValue`, i.e. exactly the
strings in the `typeHierarchy` array of `getWiderType`. -/
inductive SqlType where
  | BIT
  | INT
  | BIGINT
  | FLOAT
  | NV50
  | NV100
  | NV255
  | NV500
  | NV1000
  | NV4000
  | NVMAX
  | DATETIME2
  deriving DecidableEq, Repr, Fintype

/-- Rendering of a `SqlType` back to its source string. -/
def SqlType.render : SqlType → String
  | .BIT => "BIT"
  | .INT => "INT"
  | .BIGINT => "BIGINT"
  | .FLOAT => "FLOAT"
  | .NV50 => "NVARCHAR(50)"
  | .NV100 => "NVARCHAR(100)"
  | .NV255 => "NVARCHAR(255)"
  | .NV500 => "NVARCHAR(500)"
  | .NV1000 => "NVARCHAR(1000)"
  | .NV4000 => "NVARCHAR(4000)"
  | .NVMAX => "NVARCHAR(MAX)"
  | .DATETIME2 => "DATETIME2"

/-- `typeHierarchy.indexOf`, the position of each type in the
`typeHierarchy` array of `getWiderType`. -/
def typeIndex : SqlType → Nat
  | .BIT => 0
  | .INT => 1
  | .BIGINT => 2
  | .FLOAT => 3
  | .NV50 => 4
  | .NV100 => 5
  | .NV255 => 6
  | .NV500 => 7
  | .NV1000 => 8
  | .NV4000 => 9
  | .NVMAX => 10
  | .DATETIME2 => 11

/-- The numeric-family test `['BIT','INT','BIGINT','FLOAT'].includes(t)`. -/
def isNumericType (t : SqlType) : Bool :=
  t = .BIT || t = .INT || t = .BIGINT || t = .FLOAT

/-- `getWiderType(type1, type2)` from `src/lib/transformers.js`. -/
def getWiderType (type1 type2 : SqlType) : SqlType :=
  if type1 = type2 then type1
  else if type1 = .NVMAX || type2 = .NVMAX then .NVMAX
  else if isNumericType type1 ≠ isNumericType type2 then .NVMAX
  else if typeIndex type1 > typeIndex type2 then type1 else type2

/-- One `merged[field]` update step of `mergeSchemas`: absent keys are
appended, present keys are widened in place. -/
def insertSchemaField (m : List (String × SqlType)) (f : String) (t : SqlType) :
    List (String × SqlType) :=
  match m with
  | [] => [(f, t)]
  | (g, u) :: rest =>
    if g = f then (g, getWiderType u t) :: rest
    else (g, u) :: insertSchemaField rest f t

/-- `mergeSchemas(schemas)` from `src/lib/transformers.js`, over
insertion-ordered association lists. -/
def mergeSchemas (schemas : List (List (String × SqlType))) : List (String × SqlType) :=
  schemas.foldl (fun acc s => s.foldl (fun m ft => insertSchemaField m ft.1 ft.2) acc) []

/-! ## Dynamic values (`DocumentRecord` field values) -/

/-- A Firestore/JavaScript dynamic value.  Finite doubles are carried as
rationals; `nonFiniteNum` stands for `NaN`/`±Infinity`.  `bytes` carries the
base64 rendering the source would compute, `timestamp` its ISO-8601
rendering. -/
inductive JSValue where
  | null
  | bool (b : Bool)
  | num (q : ℚ)
  | nonFiniteNum
  | str (s : String)
  | arr (items : List JSValue)
  | obj (fields : List (String × JSValue))
  | bytes (base64 : String)
  | timestamp (iso : String)
  | geopoint (latitude longitude : ℚ)
  | docRef (path : String)

/-- Fixed deterministic stand-in for the ECMAScript number-to-string
rendering (`String(value)` / `JSON.stringify` of a number). -/
def qToString (q : ℚ) : String :=
  if q.den = 1 then toString q.num else toString q.num ++ "/" ++ toString q.den

/-- Lower-case hexadecimal digit. -/
def hexDigit (n : Nat) : Char :=
  if n < 10 then Char.ofNat ('0'.toNat + n) else Char.ofNat ('a'.toNat + (n - 10))

/-- `JSON.stringify` escaping of a single character inside a string literal. -/
def jsonEscapeChar (c : Char) : List Char :=
  if c = '"' then ['\\', '"']
  else if c = '\\' then ['\\', '\\']
  else if c = '\n' then ['\\', 'n']
  else if c = '\r' then ['\\', 'r']
  else if c = '\t' then ['\\', 't']
  else if c.toNat = 8 then ['\\', 'b']
  else if c.toNat = 12 then ['\\', 'f']
  else if c.toNat < 32 then
    ['\\', 'u', '0', '0', hexDigit (c.toNat / 16), hexDigit (c.toNat % 16)]
  else [c]

/-- `JSON.stringify` escaping of the contents of a string. -/
def jsonEscapeString (s : String) : String :=
  ⟨(s.data.map jsonEscapeChar).flatten⟩

/-- A JSON string literal: quotes around the escaped contents. -/
def jsonQuote (s : String) : String :=
  "\"" ++ jsonEscapeString s ++ "\""

mutual

/-- `JSON.stringify(v)` (compact form, as used inside `transformValue` for
arrays and nested objects).  The `bytes`/`timestamp`/`geopoint`/`docRef`
cases are unreachable on transformed values (they are rewritten away by
`transformValue` before ever being stringified); their renderings here are
immaterial. -/
def jsonStringifyCompact : JSValue → String
  | .null => "null"
  | .bool b => if b then "true" else "false"
  | .num q => qToString q
  | .nonFiniteNum => "null"
  | .str s => jsonQuote s
  | .arr items => "[" ++ jsonItemsCompact items ++ "]"
  | .obj fields => "\x7b" ++ jsonFieldsCompact fields ++ "\x7d"
  | .bytes b64 => jsonQuote b64
  | .timestamp iso => jsonQuote iso
  | .geopoint la lo =>
      "\x7b" ++ jsonQuote "latitude" ++ ":" ++ qToString la ++ "," ++
        jsonQuote "longitude" ++ ":" ++ qToString lo ++ "\x7d"
  | .docRef p => jsonQuote p

/-- Comma-joined compact renderings of array items. -/
def jsonItemsCompact : List JSValue → String
  | [] => ""
  | [v] => jsonStringifyCompact v
  | v :: rest => jsonStringifyCompact v ++ "," ++ jsonItemsCompact rest

/-- Comma-joined compact renderings of object fields. -/
def jsonFieldsCompact : List (String × JSValue) → String
  | [] => ""
  | [(k, v)] => jsonQuote k ++ ":" ++ jsonStringifyCompact v
  | (k, v) :: rest =>
      jsonQuote k ++ ":" ++ jsonStringifyCompact v ++ "," ++ jsonFieldsCompact rest

end

/-! ## Field-name sanitization and value transformation -/

/-- JS `\w` character class: `[A-Za-z0-9_]`. -/
def isWordChar (c : Char) : Bool := c.isAlpha || c.isDigit || c = '_'

/-- `replace(/^_+|_+$/g, '')`: strip leading and trailing underscores. -/
def trimUnderscores (cs : List Char) : List Char :=
  ((cs.dropWhile (· = '_')).reverse.dropWhile (· = '_')).reverse

/-- `replace(/_+/g, '_')`: collapse runs of underscores to one. -/
def collapseUnderscores : List Char → List Char
  | [] => []
  | c :: rest =>
    let r := collapseUnderscores rest
    if c = '_' then
      match r with
      | '_' :: tail => '_' :: tail
      | _ => '_' :: r
    else c :: r

/-- `sanitizeFieldName(fieldName)` from `src/lib/transformers.js`, on
character lists.  The source's first two `replace`s (dots to underscores,
then all non-word characters to underscores) compose to a single map. -/
def sanitizeFieldNameChars (cs : List Char) : List Char :=
  let replaced := cs.map (fun c => if isWordChar c then c else '_')
  let collapsed := collapseUnderscores (trimUnderscores replaced)
  let prefixed :=
    match collapsed with
    | c :: _ => if c.isDigit then '_' :: collapsed else collapsed
    | [] => []
  if prefixed = [] then "_field".data else prefixed

/-- `sanitizeFieldName` on strings. -/
def sanitizeFieldName (s : String) : String := ⟨sanitizeFieldNameChars s.data⟩

mutual

/-- `transformValue(value)` from `src/lib/transformers.js`: the rewritten,
storage-ready value paired with the inferred SQL type.  The source's
`fieldName` parameter only feeds recursive context strings and never affects
the result; it is omitted.  The source's if-chain dispatches on disjoint
runtime tags, matched here by constructor. -/
def transformValue : JSValue → JSValue × SqlType
  | .null => (.null, .NVMAX)
  | .bytes b64 => (.str b64, .NVMAX)
  | .timestamp iso => (.str iso, .DATETIME2)
  | .geopoint la lo =>
      (.obj [("latitude", .num la), ("longitude", .num lo)], .NV100)
  | .docRef p => (.str p, .NV500)
  | .arr items => (.str (jsonStringifyCompact (.arr (transformItems items))), .NVMAX)
  | .obj fields => (.str (jsonStringifyCompact (.obj (transformFields fields))), .NVMAX)
  | .bool b => (.num (if b then 1 else 0), .BIT)
  | .nonFiniteNum => (.null, .FLOAT)
  | .num q =>
      if q.den = 1 then
        if -2147483648 ≤ q ∧ q ≤ 2147483647 then (.num q, .INT) else (.num q, .BIGINT)
      else (.num q, .FLOAT)
  | .str s =>
      if s.length ≤ 50 then (.str s, .NV50)
      else if s.length ≤ 255 then (.str s, .NV255)
      else if s.length ≤ 1000 then (.str s, .NV1000)
      else if s.length ≤ 4000 then (.str s, .NV4000)
      else (.str s, .NVMAX)

/-- `value.map(item => transformValue(item).value)` for arrays. -/
def transformItems : List JSValue → List JSValue
  | [] => []
  | v :: rest => (transformValue v).1 :: transformItems rest

/-- The `Object.entries` loop transforming a nested object's values. -/
def transformFields : List (String × JSValue) → List (String × JSValue)
  | [] => []
  | (k, v) :: rest => (k, (transformValue v).1) :: transformFields rest

end

/-! ## Document transformation (`transformDocument`) -/

/-- `hasOwnProperty` on an insertion-ordered object. -/
def hasKey {α : Type} (m : List (String × α)) (k : String) : Bool :=
  m.any (fun kv => kv.1 = k)

/-- JS assignment `o[k] = v`: update an existing key in place, otherwise
append the new key. -/
def upsert {α : Type} (m : List (String × α)) (k : String) (v : α) :
    List (String × α) :=
  match m with
  | [] => [(k, v)]
  | (g, u) :: rest => if g = k then (g, v) :: rest else (g, u) :: upsert rest k v

/-- ECMAScript decimal rendering of a natural number, as produced by the
template interpolation `${counter}` in `transformDocument`. -/
def natToString (n : Nat) : String :=
  ⟨if n = 0 then ['0'] else ((Nat.digits 10 n).map Nat.digitChar).reverse⟩

/-- Counting phase of the duplicate-name `while` loop of
`transformDocument`: try `san_counter`, `san_(counter+1)`, … until a name
not already used is found.  The fuel `keys.length + 1` provably suffices. -/
def dedupeFieldAux (keys : List String) (san : String) : Nat → Nat → String
  | 0, counter => san ++ "_" ++ natToString counter
  | fuel + 1, counter =>
      let cand := san ++ "_" ++ natToString counter
      if keys.contains cand then dedupeFieldAux keys san fuel (counter + 1) else cand

/-- The duplicate-name `while` loop of `transformDocument`: the loop body
never runs when the sanitized name is `'id'` (the `finalField !== 'id'`
conjunct) or when the name is unused. -/
def dedupeField (keys : List String) (san : String) : String :=
  if san = "id" || !keys.contains san then san
  else dedupeFieldAux keys san (keys.length + 1) 1

/-- Result of `transformDocument`. -/
structure TransformedDoc where
  data : List (String × JSValue)
  schema : List (String × SqlType)
  fieldMapping : List (String × String)

/-- One iteration of the `Object.entries` loop of `transformDocument`:
sanitize the field name, transform the value, dedupe the column name,
store value, type and mapping. -/
def transformDocStep (acc : TransformedDoc) (fv : String × JSValue) :
    TransformedDoc :=
  let san := sanitizeFieldName fv.1
  let tv := transformValue fv.2
  let finalField := dedupeField (acc.data.map Prod.fst) san
  { data := upsert acc.data finalField tv.1
    schema := upsert acc.schema finalField tv.2
    fieldMapping := upsert acc.fieldMapping fv.1 finalField }

/-- `transformDocument(docId, data)` from `src/lib/transformers.js`.
Document data is an insertion-ordered association list (the `Object.entries`
iteration order of the source document). -/
def transformDocument (docId : String) (docData : List (String × JSValue)) :
    TransformedDoc :=
  docData.foldl transformDocStep
    { data := [("id", .str docId)], schema := [("id", .NV255)], fieldMapping := [] }

/-- Whether a JS value is a string. -/
def JSValue.isStr : JSValue → Bool
  | .str _ => true
  | _ => false

/-- The rational 61/2 in lowest terms, a concrete non-integer number. -/
def halfOdd : ℚ := ⟨61, 2, by norm_num, by norm_num⟩

/-! ## Path normalization (`normalizeCollectionPath`, `src/lib/collector.js`) -/

/-- Prepend a character to the first segment of a split result. -/
def consHead (c : Char) : List (List Char) → List (List Char)
  | [] => [[c]]
  | s :: ss => (c :: s) :: ss

/-- JS `path.split(sep)` for a single-character separator (keeps empty
segments, returns `[""]` on the empty string). -/
def splitOnChar (sep : Char) : List Char → List (List Char)
  | [] => [[]]
  | c :: rest =>
    if c = sep then [] :: splitOnChar sep rest
    else consHead c (splitOnChar sep rest)

/-- JS `parts.join(sep)` for an arbitrary separator string. -/
def joinSep (sep : List Char) : List (List Char) → List Char
  | [] => []
  | [x] => x
  | x :: y :: rest => x ++ sep ++ joinSep sep (y :: rest)

/-- `parts.filter((_, index) => index % 2 === 0)`: the elements at even
indices. -/
def evenIdx {α : Type} : List α → List α
  | [] => []
  | [x] => [x]
  | x :: _ :: rest => x :: evenIdx rest

/-- `normalizeCollectionPath(path)` from `src/lib/collector.js`: split on
`/`, keep the even-index segments (collection names), join with `__`. -/
def normalizeCollectionPathChars (path : List Char) : List Char :=
  joinSep ['_', '_'] (evenIdx (splitOnChar '/' path))

/-- `normalizeCollectionPath` on strings. -/
def normalizeCollectionPath (path : String) : String :=
  ⟨normalizeCollectionPathChars path.data⟩

/-! ## Paginated document collection (`collectDocuments`) -/

/-- `collectDocuments(collectionRef, onProgress)` from
`src/lib/collector.js`, over a finite collection served in a stable order
(`remaining`): repeated `limit(batchSize)` / `startAfter(lastDoc)` pages;
an empty page (`snapshot.empty`) breaks the loop, as does a page shorter
than `batchSize`.  Returns the documents read, in order, together with the
number of page fetches (`query.get()` calls) issued.  The progress callback
is a pure observer and is omitted.  Totality of this definition is the
termination half of C6. -/
def collectDocuments {α : Type} (batchSize : Nat) (remaining : List α) :
    List α × Nat :=
  if h0 : (remaining.take batchSize).length = 0 then ([], 1)
  else if h1 : (remaining.take batchSize).length < batchSize then
    (remaining.take batchSize, 1)
  else
    let r := collectDocuments batchSize (remaining.drop batchSize)
    (remaining.take batchSize ++ r.1, r.2 + 1)
termination_by remaining.length
decreasing_by
  simp only [List.length_take, List.length_drop] at h0 h1 ⊢
  omega

/-! ## Association-list lemmas (JS object model) -/

/-- The key sequence of an insertion-ordered object. -/
def keysOf {α : Type} (m : List (String × α)) : List String := m.map Prod.fst

/-- JS property read `o[k]` (first matching key). -/
def lookupVal {α : Type} : List (String × α) → String → Option α
  | [], _ => none
  | (g, u) :: rest, k => if g = k then some u else lookupVal rest k

/-! ## The `transformDocument` loop invariant -/

/-- The last field of a document whose sanitized name is exactly `id`
(the field whose value ends up in the output `id` column). -/
def lastIdField : List (String × JSValue) → Option (String × JSValue)
  | [] => none
  | fv :: rest =>
    match lastIdField rest with
    | some g => some g
    | none => if sanitizeFieldName fv.1 = "id" then some fv else none

/-! ## JSON artifact generation (`src/lib/jsonExporter.js`) -/

/-- `n` spaces of indentation. -/
def spaces (n : Nat) : String := ⟨List.replicate n ' '⟩

mutual

/-- `JSON.stringify(v, null, 2)`: pretty-printed JSON with two-space
indentation.  `ind` is the indentation depth of the line on which the value
starts.  As with the compact form, the raw Firestore constructors are
unreachable on transformed values. -/
def jsonStringifyPretty : Nat → JSValue → String
  | _, .null => "null"
  | _, .bool b => if b then "true" else "false"
  | _, .num q => qToString q
  | _, .nonFiniteNum => "null"
  | _, .str s => jsonQuote s
  | _, .arr [] => "[]"
  | ind, .arr (x :: rest) =>
      "[\n" ++ jsonItemsPretty ind (x :: rest) ++ "\n" ++ spaces ind ++ "]"
  | _, .obj [] => "{}"
  | ind, .obj (f :: rest) =>
      "\x7b\n" ++ jsonFieldsPretty ind (f :: rest) ++ "\n" ++ spaces ind ++ "\x7d"
  | _, .bytes b64 => jsonQuote b64
  | _, .timestamp iso => jsonQuote iso
  | ind, .geopoint la lo =>
      "\x7b\n" ++ spaces (ind + 2) ++ jsonQuote "latitude" ++ ": " ++ qToString la ++
        ",\n" ++ spaces (ind + 2) ++ jsonQuote "longitude" ++ ": " ++ qToString lo ++
        "\n" ++ spaces ind ++ "\x7d"
  | _, .docRef p => jsonQuote p

/-- The `,\n`-joined item lines of a pretty-printed array whose bracket
line is indented at `ind`. -/
def jsonItemsPretty (ind : Nat) : List JSValue → String
  | [] => ""
  | [v] => spaces (ind + 2) ++ jsonStringifyPretty (ind + 2) v
  | v :: rest =>
      spaces (ind + 2) ++ jsonStringifyPretty (ind + 2) v ++ ",\n" ++
        jsonItemsPretty ind rest

/-- The `,\n`-joined field lines of a pretty-printed object whose brace
line is indented at `ind`. -/
def jsonFieldsPretty (ind : Nat) : List (String × JSValue) → String
  | [] => ""
  | [(k, v)] =>
      spaces (ind + 2) ++ jsonQuote k ++ ": " ++ jsonStringifyPretty (ind + 2) v
  | (k, v) :: rest =>
      spaces (ind + 2) ++ jsonQuote k ++ ": " ++ jsonStringifyPretty (ind + 2) v ++
        ",\n" ++ jsonFieldsPretty ind rest

end

/-- A document record `{id, data, path}` as accumulated by the collector. -/
structure SDoc where
  id : String
  data : List (String × JSValue)
  path : String

/-- The JSON artifact content written by `exportToJson`
(`src/lib/jsonExporter.js`): `JSON.stringify(output, null, 2)` where
`output = {collection, exportedAt, count, documents}` and each document is
`{_id, _path, ...transformDocument(id, data).data}`.  The clock reading
`new Date().toISOString()` is the explicit `now` input; the file-system
write around this content is outside the model. -/
def exportToJsonContent (now : String) (collectionName : String)
    (documents : List SDoc) : String :=
  jsonStringifyPretty 0 (.obj
    [("collection", .str collectionName),
     ("exportedAt", .str now),
     ("count", .num (documents.length : ℚ)),
     ("documents", .arr (documents.map (fun d =>
       .obj (("_id", JSValue.str d.id) :: ("_path", JSValue.str d.path) ::
         (transformDocument d.id d.data).data))))])

/-! ## SQL artifact generation (`src/lib/sqlExporter.js`) -/

/-- `sanitizeFileName(collectionName)` from `src/lib/transformers.js`:
invalid filename characters and whitespace to underscores, collapse
underscore runs, trim boundary underscores, cap the length at 200. -/
def sanitizeFileName (collectionName : String) : String :=
  let s1 := collectionName.data.map (fun c =>
    if c = '<' ∨ c = '>' ∨ c = ':' ∨ c = '"' ∨ c = '/' ∨ c = '\\' ∨
        c = '|' ∨ c = '?' ∨ c = '*' then '_' else c)
  let s2 := s1.map (fun c => if c.isWhitespace then '_' else c)
  let s3 := trimUnderscores (collapseUnderscores s2)
  let s4 := s3.take 200
  if s4 = [] then "collection" else ⟨s4⟩

/-- `RESERVED_WORDS` from `src/lib/sqlExporter.js`. -/
def reservedWords : List String :=
  ["ADD", "ALL", "ALTER", "AND", "ANY", "AS", "ASC", "AUTHORIZATION", "BACKUP",
   "BEGIN", "BETWEEN", "BREAK", "BROWSE", "BULK", "BY", "CASCADE", "CASE",
   "CHECK", "CHECKPOINT", "CLOSE", "CLUSTERED", "COALESCE", "COLLATE", "COLUMN",
   "COMMIT", "COMPUTE", "CONSTRAINT", "CONTAINS", "CONTAINSTABLE", "CONTINUE",
   "CONVERT", "CREATE", "CROSS", "CURRENT", "CURRENT_DATE", "CURRENT_TIME",
   "CURRENT_TIMESTAMP", "CURRENT_USER", "CURSOR", "DATABASE", "DBCC",
   "DEALLOCATE", "DECLARE", "DEFAULT", "DELETE", "DENY", "DESC", "DISK",
   "DISTINCT", "DISTRIBUTED", "DOUBLE", "DROP", "DUMP", "ELSE", "END", "ERRLVL",
   "ESCAPE", "EXCEPT", "EXEC", "EXECUTE", "EXISTS", "EXIT", "EXTERNAL", "FETCH",
   "FILE", "FILLFACTOR", "FOR", "FOREIGN", "FREETEXT", "FREETEXTTABLE", "FROM",
   "FULL", "FUNCTION", "GOTO", "GRANT", "GROUP", "HAVING", "HOLDLOCK", "IDENTITY",
   "IDENTITY_INSERT", "IDENTITYCOL", "IF", "IN", "INDEX", "INNER", "INSERT",
   "INTERSECT", "INTO", "IS", "JOIN", "KEY", "KILL", "LEFT", "LIKE", "LINENO",
   "LOAD", "MERGE", "NATIONAL", "NOCHECK", "NONCLUSTERED", "NOT", "NULL",
   "NULLIF", "OF", "OFF", "OFFSETS", "ON", "OPEN", "OPENDATASOURCE", "OPENQUERY",
   "OPENROWSET", "OPENXML", "OPTION", "OR", "ORDER", "OUTER", "OVER", "PERCENT",
   "PIVOT", "PLAN", "PRECISION", "PRIMARY", "PRINT", "PROC", "PROCEDURE",
   "PUBLIC", "RAISERROR", "READ", "READTEXT", "RECONFIGURE", "REFERENCES",
   "REPLICATION", "RESTORE", "RESTRICT", "RETURN", "REVERT", "REVOKE", "RIGHT",
   "ROLLBACK", "ROWCOUNT", "ROWGUIDCOL", "RULE", "SAVE", "SCHEMA", "SECURITYAUDIT",
   "SELECT", "SEMANTICKEYPHRASETABLE", "SEMANTICSIMILARITYDETAILSTABLE",
   "SEMANTICSIMILARITYTABLE", "SESSION_USER", "SET", "SETUSER", "SHUTDOWN",
   "SOME", "STATISTICS", "SYSTEM_USER", "TABLE", "TABLESAMPLE", "TEXTSIZE",
   "THEN", "TO", "TOP", "TRAN", "TRANSACTION", "TRIGGER", "TRUNCATE", "TRY_CONVERT",
   "TSEQUAL", "UNION", "UNIQUE", "UNPIVOT", "UPDATE", "UPDATETEXT", "USE", "USER",
   "VALUES", "VARYING", "VIEW", "WAITFOR", "WHEN", "WHERE", "WHILE", "WITH",
   "WITHIN GROUP", "WRITETEXT", "TYPE", "STATUS", "NAME", "VALUE", "DATA", "LEVEL",
   "DATE", "TIME", "TIMESTAMP", "YEAR", "MONTH", "DAY", "HOUR", "MINUTE", "SECOND",
   "ZONE", "FIRST", "LAST", "NEXT", "PRIOR", "ABSOLUTE", "RELATIVE", "ACTION"]

/-- `needsQuoting(name)`: reserved word (case-insensitively), leading
digit, or any character outside `[a-zA-Z0-9_]`. -/
def needsQuoting (name : String) : Bool :=
  reservedWords.contains (String.map Char.toUpper name) ||
  (match name.data with
   | c :: _ => c.isDigit
   | [] => false) ||
  name.data.any (fun c => !(c.isAlpha || c.isDigit || c = '_'))

/-- `quoteName(name)`: bracket-quote when needed, doubling `]`. -/
def quoteName (name : String) : String :=
  if needsQuoting name then
    "[" ++ (⟨(name.data.map (fun c => if c = ']' then [']', ']'] else [c])).flatten⟩ : String) ++ "]"
  else name

/-- Double every single quote, as in `value.replace(/'/g, "''")`. -/
def sqlEscapeQuotes (s : String) : String :=
  ⟨(s.data.map (fun c => if c = '\'' then ['\'', '\''] else [c])).flatten⟩

/-- `escapeSqlValue(value)` from `src/lib/sqlExporter.js`; a column absent
from the document (`undefined`) is `none`. -/
def escapeSqlValue : Option JSValue → String
  | none => "NULL"
  | some .null => "NULL"
  | some (.num q) => qToString q
  | some .nonFiniteNum => "NULL"
  | some (.bool b) => if b then "1" else "0"
  | some (.str s) => "N'" ++ sqlEscapeQuotes s ++ "'"
  | some v => "N'" ++ sqlEscapeQuotes (jsonStringifyCompact v) ++ "'"

/-- The `config.sql` settings of `src/config.js`. -/
structure SqlConfig where
  schema : Option String
  includeCreateTable : Bool
  includeDropTable : Bool

/-- The shipped defaults: schema `dbo`, emit DROP and CREATE TABLE. -/
def defaultSqlConfig : SqlConfig :=
  { schema := some "dbo", includeCreateTable := true, includeDropTable := true }

/-- `config.sql.schema ? `[${schema}].` : ''`. -/
def schemaPrefix (cfg : SqlConfig) : String :=
  match cfg.schema with
  | some s => "[" ++ s ++ "]."
  | none => ""

/-- `generateCreateTable(tableName, schema)` from `src/lib/sqlExporter.js`. -/
def generateCreateTable (cfg : SqlConfig) (tableName : String)
    (schema : List (String × SqlType)) : String :=
  let fullTableName := schemaPrefix cfg ++ quoteName tableName
  let columns := String.intercalate ",\n"
    (schema.map (fun ft => "    " ++ quoteName ft.1 ++ " " ++ ft.2.render))
  (if cfg.includeDropTable then
    "IF OBJECT_ID('" ++ schemaPrefix cfg ++ tableName ++ "', 'U') IS NOT NULL\n" ++
      "    DROP TABLE " ++ fullTableName ++ ";\nGO\n\n"
   else "") ++
  "CREATE TABLE " ++ fullTableName ++ " (\n" ++ columns ++ "\n);\nGO\n\n"

/-- `generateInsert(tableName, data, columns)` from `src/lib/sqlExporter.js`. -/
def generateInsert (cfg : SqlConfig) (tableName : String)
    (data : List (String × JSValue)) (columns : List String) : String :=
  let fullTableName := schemaPrefix cfg ++ quoteName tableName
  let columnList := String.intercalate ", " (columns.map quoteName)
  let valueList := String.intercalate ", "
    (columns.map (fun col => escapeSqlValue (lookupVal data col)))
  "INSERT INTO " ++ fullTableName ++ " (" ++ columnList ++ ") VALUES (" ++
    valueList ++ ");"

/-- The SQL artifact content written by `exportToSql`
(`src/lib/sqlExporter.js`): header comments (with the clock reading `now`),
optional DROP/CREATE TABLE from the merged schema, one INSERT per document.
Each document is transformed and given a `_path` column (`NVARCHAR(500)`). -/
def exportToSqlContent (cfg : SqlConfig) (now collectionName : String)
    (documents : List SDoc) : String :=
  let safeCollectionName := sanitizeFileName collectionName
  let transformedDocs := documents.map (fun d =>
    upsert (transformDocument d.id d.data).data "_path" (.str d.path))
  let schemas := documents.map (fun d =>
    upsert (transformDocument d.id d.data).schema "_path" .NV500)
  let mergedSchema := mergeSchemas schemas
  let columns := keysOf mergedSchema
  "-- Firestore Export: " ++ collectionName ++ "\n" ++
    "-- Exported at: " ++ now ++ "\n" ++
    "-- Document count: " ++ natToString documents.length ++ "\n\n" ++
    (if cfg.includeCreateTable then
      generateCreateTable cfg safeCollectionName mergedSchema
     else "") ++
    "-- Data\n" ++
    String.join (transformedDocs.map (fun d =>
      generateInsert cfg safeCollectionName d columns ++ "\n")) ++
    "GO\n"

/-- The timestamp-independent part of the JSON artifact before the
`exportedAt` value. -/
def jsonArtifactPre (collectionName : String) : String :=
  "\x7b\n" ++ spaces 2 ++ jsonQuote "collection" ++ ": " ++
    jsonQuote collectionName ++ ",\n" ++ spaces 2 ++ jsonQuote "exportedAt" ++
    ": " ++ "\""

/-- The timestamp-independent part of the JSON artifact after the
`exportedAt` value: count, documents, schema-bearing serialized rows. -/
def jsonArtifactPost (documents : List SDoc) : String :=
  "\"" ++ ",\n" ++ spaces 2 ++ jsonQuote "count" ++ ": " ++
    qToString (documents.length : ℚ) ++ ",\n" ++ spaces 2 ++
    jsonQuote "documents" ++ ": " ++
    jsonStringifyPretty 2 (.arr (documents.map (fun d =>
      .obj (("_id", JSValue.str d.id) :: ("_path", JSValue.str d.path) ::
        (transformDocument d.id d.data).data)))) ++
    "\n" ++ spaces 0 ++ "\x7d"

/-- The timestamp-independent part of the SQL artifact before the
`-- Exported at:` value. -/
def sqlArtifactPre (collectionName : String) : String :=
  "-- Firestore Export: " ++ collectionName ++ "\n" ++ "-- Exported at: "

/-- The timestamp-independent part of the SQL artifact after the
`-- Exported at:` value: document count, DDL and INSERT statements. -/
def sqlArtifactPost (cfg : SqlConfig) (collectionName : String)
    (documents : List SDoc) : String :=
  "\n" ++ "-- Document count: " ++ natToString documents.length ++ "\n\n" ++
    (if cfg.includeCreateTable then
      generateCreateTable cfg (sanitizeFileName collectionName)
        (mergeSchemas (documents.map (fun d =>
          upsert (transformDocument d.id d.data).schema "_path" .NV500)))
     else "") ++
    "-- Data\n" ++
    String.join ((documents.map (fun d =>
      upsert (transformDocument d.id d.data).data "_path" (.str d.path))).map
      (fun d => generateInsert cfg (sanitizeFileName collectionName) d
        (keysOf (mergeSchemas (documents.map (fun d2 =>
          upsert (transformDocument d2.id d2.data).schema "_path" .NV500)))) ++
        "\n")) ++
    "GO\n"

/-! ## Traversal engine (`streamCollections`, `src/lib/collector.js`) -/

/-- The document-store collaborator as the traversal engine consumes it:
the documents of a collection path (fully collected, in stable order) and
the child-collection names of a document path. -/
structure Store where
  docs : String → List SDoc
  children : String → List String

/-- One sink invocation (`exportToJson` / `exportToSql`) performed by the
flush loop of `streamCollections`. -/
inductive SinkEvent where
  | json (table : String) (records : List SDoc)
  | sql (table : String) (records : List SDoc)

/-- The records a sink invocation writes. -/
def SinkEvent.records : SinkEvent → List SDoc
  | .json _ records => records
  | .sql _ records => records

/-- `documentsByPath` update: append the just-collected documents to the
normalized path's accumulator, creating the entry on first touch. -/
def upsertDocs (m : List (String × List SDoc)) (k : String) (v : List SDoc) :
    List (String × List SDoc) :=
  match m with
  | [] => [(k, v)]
  | (g, u) :: rest =>
    if g = k then (g, u ++ v) :: rest else (g, u) :: upsertDocs rest k v

/-- The `while (queue.length > 0)` loop of `streamCollections`: pop a path,
skip it if already processed, collect its documents, group them under the
normalized path, and enqueue the unvisited subcollection paths discovered
on each document.  `fuel` bounds the number of loop iterations; `none`
means the fuel ran out (on every finite store a large enough fuel
suffices, matching the source loop's termination). -/
def streamLoop (store : Store) :
    Nat → List (String × Nat) → List String → List (String × List SDoc) →
    Option (List (String × List SDoc))
  | 0, _, _, _ => none
  | _ + 1, [], _, acc => some acc
  | fuel + 1, (path, depth) :: queue, processed, acc =>
    if processed.contains path then streamLoop store fuel queue processed acc
    else
      let processed2 := path :: processed
      let documents := store.docs path
      if documents.length > 0 then
        let acc2 := upsertDocs acc (normalizeCollectionPath path) documents
        let newItems := (documents.map (fun d =>
          (store.children d.path).filterMap (fun name =>
            if processed2.contains (d.path ++ "/" ++ name) then none
            else some (d.path ++ "/" ++ name, depth + 1)))).flatten
        streamLoop store fuel (queue ++ newItems) processed2 acc2
      else streamLoop store fuel queue processed2 acc

/-- The flush loop of `streamCollections`: after the queue has drained,
walk the accumulated per-table map once and invoke the JSON and/or SQL
writer per table according to the requested format, skipping empty
accumulators. -/
def flushPhase (format : String) (m : List (String × List SDoc)) :
    List SinkEvent :=
  (m.map (fun kd =>
    if kd.2.length = 0 then []
    else
      (if format = "json" ∨ format = "both" then [SinkEvent.json kd.1 kd.2]
       else []) ++
      (if format = "sql" ∨ format = "both" then [SinkEvent.sql kd.1 kd.2]
       else []))).flatten

/-- `streamCollections(collectionName, format)`: drain the BFS queue
seeded with the root collection, then flush every accumulated table. -/
def streamCollections (store : Store) (fuel : Nat)
    (collectionName format : String) : Option (List SinkEvent) :=
  (streamLoop store fuel [(collectionName, 0)] [] []).map (flushPhase format)

/-- The number of JSON-writer invocations for a given table. -/
def countJsonFor (events : List SinkEvent) (table : String) : Nat :=
  events.countP (fun e =>
    match e with
    | .json t _ => t = table
    | _ => false)

/-- The number of SQL-writer invocations for a given table. -/
def countSqlFor (events : List SinkEvent) (table : String) : Nat :=
  events.countP (fun e =>
    match e with
    | .sql t _ => t = table
    | _ => false)

/-- A two-level demonstration store: root collection `users` with two
documents, one of which owns a subcollection `orders`. -/
def demoStore : Store where
  docs := fun p =>
    if p = "users" then
      [⟨"u1", [("name", .str "Ann")], "users/u1"⟩,
       ⟨"u2", [("name", .str "Bob")], "users/u2"⟩]
    else if p = "users/u1/orders" then
      [⟨"o1", [("total", .num 5)], "users/u1/orders/o1"⟩]
    else []
  children := fun p => if p = "users/u1" then ["orders"] else []

/-- The sink invocations the demonstration traversal performs. -/
def demoEvents : List SinkEvent :=
  [.json "users" [⟨"u1", [("name", .str "Ann")], "users/u1"⟩,
                  ⟨"u2", [("name", .str "Bob")], "users/u2"⟩],
   .sql "users" [⟨"u1", [("name", .str "Ann")], "users/u1"⟩,
                 ⟨"u2", [("name", .str "Bob")], "users/u2"⟩],
   .json "users__orders" [⟨"o1", [("total", .num 5)], "users/u1/orders/o1"⟩],
   .sql "users__orders" [⟨"o1", [("total", .num 5)], "users/u1/orders/o1"⟩]]

/-! ## Export driver and checkpoint state machine (`src/index.js`) -/

/-- The persisted export state (`.export-state.json`).  The `startedAt`
and `lastUpdated` ISO timestamps are immaterial to the lifecycle claims
and omitted from the model. -/
structure ExportState where
  format : String
  requestedCollections : List String
  completed : List String
  lastError : Option (String × String)
  deriving DecidableEq, Repr

/-- Driver actions relevant to the checkpoint lifecycle: processing one
root collection (with its success flag), the durable `saveState` write,
and the `clearState` file deletion. -/
inductive DriverEvent where
  | runCollection (name : String) (ok : Bool)
  | saveState (st : ExportState)
  | clearState
  deriving DecidableEq, Repr

/-- The CLI options `main` consults, plus `config.continueOnError`. -/
structure DriverOpts where
  reset : Bool
  resume : Bool
  format : String
  continueOnError : Bool

/-- JS `Array.prototype.sort()` on an array of strings: the sorted
permutation under lexicographic order. -/
def sortStrings (l : List String) : List String := l.insertionSort (· ≤ ·)

/-- The resume-compatibility check of `main`: equal `format`, and equal
JSON renderings of the sorted requested-collection arrays — i.e. equal
sorted sequences. -/
def resumeCompatible (saved : ExportState) (format : String)
    (collectionsToExport : List String) : Bool :=
  saved.format = format &&
    sortStrings saved.requestedCollections = sortStrings collectionsToExport

/-- The `completedCollections` a resumed run starts from: the persisted
`completed` when a state file is present and passes the compatibility
check, otherwise empty. -/
def resumeCompleted (saved : Option ExportState) (format : String)
    (collectionsToExport : List String) : List String :=
  match saved with
  | some st =>
    if resumeCompatible st format collectionsToExport then st.completed else []
  | none => []

/-- The per-collection loop of `main`: run one collection; on success push
it onto `completed` and save state, on failure record `lastError` and save
state; abort the run unless `config.continueOnError`.  Returns the event
trace, the final state and the aborted flag. -/
def runLoop (outcome : String → Option String) (continueOnError : Bool) :
    List String → ExportState → List DriverEvent × ExportState × Bool
  | [], st => ([], st, false)
  | c :: rest, st =>
    match outcome c with
    | none =>
      let st2 := { st with completed := st.completed ++ [c] }
      let r := runLoop outcome continueOnError rest st2
      (DriverEvent.runCollection c true :: DriverEvent.saveState st2 :: r.1, r.2)
    | some msg =>
      let st2 := { st with lastError := some (c, msg) }
      if continueOnError then
        let r := runLoop outcome continueOnError rest st2
        (DriverEvent.runCollection c false :: DriverEvent.saveState st2 :: r.1,
          r.2)
      else
        ([DriverEvent.runCollection c false, DriverEvent.saveState st2], st2, true)

/-- `main` from `src/index.js`, reduced to its checkpoint lifecycle: the
`--reset` deletion, the resume-compatibility check (which also sorts the
collection array in place, as `JSON.stringify(collectionsToExport.sort())`
does), the per-collection loop with a durable write after every outcome,
and the final deletion when the loop runs to completion.  `saved0` is the
state file's content if present; `outcome c` is `none` when
`streamCollections` succeeds for `c` and the error message otherwise.
`clearState` events are emitted only when the state file exists, mirroring
the `existsSync` guard inside `clearState()`. -/
def postResetSaved (opts : DriverOpts) (saved0 : Option ExportState) :
    Option ExportState :=
  if opts.reset then none else saved0

/-- The `completedCollections` of the run, empty unless `--resume`. -/
def completedOf (opts : DriverOpts) (saved : Option ExportState)
    (collectionsToExport : List String) : List String :=
  if opts.resume then resumeCompleted saved opts.format collectionsToExport
  else []

/-- The `resuming` flag of `main`. -/
def resumingOf (opts : DriverOpts) (saved : Option ExportState)
    (collectionsToExport : List String) : Bool :=
  opts.resume && (match saved with
    | some st => resumeCompatible st opts.format collectionsToExport
    | none => false)

/-- The collection array after the resume check, which sorts it in place
(`JSON.stringify(collectionsToExport.sort())`). -/
def colsOf (opts : DriverOpts) (saved : Option ExportState)
    (collectionsToExport : List String) : List String :=
  if opts.resume ∧ saved.isSome then sortStrings collectionsToExport
  else collectionsToExport

/-- `remainingCollections`: the requested collections not yet completed. -/
def remainingOf (opts : DriverOpts) (saved : Option ExportState)
    (collectionsToExport : List String) : List String :=
  (colsOf opts saved collectionsToExport).filter
    (fun c => !(completedOf opts saved collectionsToExport).contains c)

def mainModel (opts : DriverOpts) (saved0 : Option ExportState)
    (collectionsToExport : List String) (outcome : String → Option String) :
    List DriverEvent × Bool :=
  let resetEvents : List DriverEvent :=
    if opts.reset ∧ saved0.isSome then [.clearState] else []
  let saved : Option ExportState := postResetSaved opts saved0
  let remaining := remainingOf opts saved collectionsToExport
  if remaining = [] ∧ resumingOf opts saved collectionsToExport then
    (resetEvents ++ [.clearState], false)
  else
    let st0 : ExportState :=
      { format := opts.format,
        requestedCollections := colsOf opts saved collectionsToExport,
        completed := completedOf opts saved collectionsToExport,
        lastError := none }
    let r := runLoop outcome opts.continueOnError remaining st0
    if r.2.2 then (resetEvents ++ r.1, true)
    else
      (resetEvents ++ r.1 ++
        (if saved.isSome ∨ remaining ≠ [] then [.clearState] else []), false)

/-- Whether every collection-processing event is immediately followed by a
durable state write. -/
def savesAfterRuns : List DriverEvent → Bool
  | [] => true
  | .runCollection _ _ :: .saveState _ :: rest => savesAfterRuns rest
  | .runCollection _ _ :: _ => false
  | _ :: rest => savesAfterRuns rest

/-- The number of state-file deletions in a trace. -/
def countClear (events : List DriverEvent) : Nat :=
  events.countP (fun e =>
    match e with
    | .clearState => true
    | _ => false)

/-! ## Theorems -/

/-- C1: `getWiderType` is idempotent, commutative and associative over the
declared twelve-element ColumnType hierarchy. -/
theorem getWiderType_lattice_laws :
    ∀ a b c : SqlType,
      getWiderType a a = a ∧
      getWiderType a b = getWiderType b a ∧
      getWiderType (getWiderType a b) c = getWiderType a (getWiderType b c) := by
  decide

/-- C7 (code evaluated at the failing input): on a GeoPoint, `transformValue`
infers `NVARCHAR(100)` but returns the raw `{latitude, longitude}` object —
not a JSON string, contrary to the claim and to the source's own
`// Store as JSON string` comment. -/
theorem transformValue_geopoint_is_object :
    transformValue (.geopoint 1 2) =
      (.obj [("latitude", .num 1), ("longitude", .num 2)], .NV100) ∧
    (transformValue (.geopoint 1 2)).1.isStr = false :=
  ⟨rfl, rfl⟩

/-- C9: numeric tier inference for finite numbers: integer-valued within the
signed 32-bit range gives `INT`, integer-valued outside it gives `BIGINT`,
non-integer gives `FLOAT`. -/
theorem transformValue_numeric_tiers (q : ℚ) :
    (q.den = 1 → -2147483648 ≤ q → q ≤ 2147483647 →
        transformValue (.num q) = (.num q, .INT)) ∧
    (q.den = 1 → (q < -2147483648 ∨ 2147483647 < q) →
        transformValue (.num q) = (.num q, .BIGINT)) ∧
    (q.den ≠ 1 → transformValue (.num q) = (.num q, .FLOAT)) := by
  refine ⟨?_, ?_, ?_⟩
  · intro h1 h2 h3
    simp [transformValue, h1, h2, h3]
  · intro h1 h2
    have hno : ¬(-2147483648 ≤ q ∧ q ≤ 2147483647) := by
      rcases h2 with h | h
      · exact fun hc => absurd hc.1 (not_le.mpr h)
      · exact fun hc => absurd hc.2 (not_le.mpr h)
    simp [transformValue, h1, hno]
  · intro h1
    simp [transformValue, h1]

/-- Witness for C9 at `30`, `3000000000` and `61/2`. -/
theorem transformValue_numeric_tiers_witness :
    transformValue (.num 30) = (.num 30, .INT) ∧
    transformValue (.num 3000000000) = (.num 3000000000, .BIGINT) ∧
    transformValue (.num halfOdd) = (.num halfOdd, .FLOAT) :=
  ⟨(transformValue_numeric_tiers 30).1 (by decide) (by norm_num) (by norm_num),
   (transformValue_numeric_tiers 3000000000).2.1 (by decide)
     (Or.inr (by norm_num)),
   (transformValue_numeric_tiers halfOdd).2.2 (by decide)⟩

theorem splitOnChar_ne_nil (sep : Char) (cs : List Char) :
    splitOnChar sep cs ≠ [] := by
  induction cs with
  | nil => simp [splitOnChar]
  | cons c rest ih =>
    simp only [splitOnChar]
    split
    · simp
    · cases h : splitOnChar sep rest <;> simp [consHead]

theorem splitOnChar_no_sep (sep : Char) (x : List Char) (hx : sep ∉ x) :
    splitOnChar sep x = [x] := by
  induction x with
  | nil => rfl
  | cons c rest ih =>
    rw [List.mem_cons, not_or] at hx
    have hc : ¬(c = sep) := fun h => hx.1 h.symm
    simp only [splitOnChar, if_neg hc, ih hx.2, consHead]

theorem splitOnChar_append (sep : Char) (x t : List Char) (hx : sep ∉ x) :
    splitOnChar sep (x ++ sep :: t) = x :: splitOnChar sep t := by
  induction x with
  | nil => simp [splitOnChar]
  | cons c rest ih =>
    rw [List.mem_cons, not_or] at hx
    have hc : ¬(c = sep) := fun h => hx.1 h.symm
    simp only [List.cons_append, splitOnChar, if_neg hc]
    rw [show rest.append (sep :: t) = rest ++ sep :: t from rfl, ih hx.2]
    rfl

theorem splitOnChar_joinSep (sep : Char) :
    ∀ segs : List (List Char), segs ≠ [] → (∀ s ∈ segs, sep ∉ s) →
      splitOnChar sep (joinSep [sep] segs) = segs
  | [], h, _ => absurd rfl h
  | [x], _, hs => by
      simpa [joinSep] using splitOnChar_no_sep sep x (hs x (by simp))
  | x :: y :: rest, _, hs => by
      have hx : sep ∉ x := hs x (by simp)
      have hrest : ∀ s ∈ y :: rest, sep ∉ s := fun s hm => hs s (by simp [hm])
      have ih := splitOnChar_joinSep sep (y :: rest) (by simp) hrest
      have hj : joinSep [sep] (x :: y :: rest) =
          x ++ sep :: joinSep [sep] (y :: rest) := by
        simp [joinSep]
      rw [hj, splitOnChar_append sep x _ hx, ih]

/-- The normalized form of a well-formed path (alternating slash-free
segments) is the `__`-join of its even-index (collection-name) segments. -/
theorem normalizeCollectionPathChars_joinSep (segs : List (List Char))
    (h : segs ≠ []) (hs : ∀ s ∈ segs, '/' ∉ s) :
    normalizeCollectionPathChars (joinSep ['/'] segs) =
      joinSep ['_', '_'] (evenIdx segs) := by
  unfold normalizeCollectionPathChars
  rw [splitOnChar_joinSep '/' segs h hs]

/-- Splitting at the first separator occurrence is unambiguous when neither
prefix contains the separator. -/
theorem append_sep_inj (sep : Char) :
    ∀ a b s t : List Char, sep ∉ a → sep ∉ b →
      a ++ sep :: s = b ++ sep :: t → a = b ∧ s = t
  | [], [], s, t, _, _, h => by simpa using h
  | [], c :: b', s, t, _, hb, h => by
      rw [List.mem_cons, not_or] at hb
      exact absurd (List.cons.inj h).1 (fun he => hb.1 he)
  | c :: a', [], s, t, ha, _, h => by
      rw [List.mem_cons, not_or] at ha
      exact absurd (List.cons.inj h).1 (fun he => ha.1 he.symm)
  | c :: a', d :: b', s, t, ha, hb, h => by
      rw [List.mem_cons, not_or] at ha hb
      obtain ⟨rfl, h2⟩ := List.cons.inj h
      obtain ⟨h3, h4⟩ := append_sep_inj sep a' b' s t ha.2 hb.2 h2
      exact ⟨by rw [h3], h4⟩

/-- Joining with `__` is injective on nonempty lists of underscore-free
segments. -/
theorem joinSep_underscore_inj :
    ∀ xs ys : List (List Char), xs ≠ [] → ys ≠ [] →
      (∀ x ∈ xs, '_' ∉ x) → (∀ y ∈ ys, '_' ∉ y) →
      joinSep ['_', '_'] xs = joinSep ['_', '_'] ys → xs = ys
  | [], _, hx, _, _, _, _ => absurd rfl hx
  | _ :: _, [], _, hy, _, _, _ => absurd rfl hy
  | [x], [y], _, _, _, _, h => by simpa [joinSep] using h
  | [x], y1 :: y2 :: yr, _, _, hxs, hys, h => by
      exfalso
      have hxu : '_' ∉ x := hxs x (by simp)
      have : x = y1 ++ '_' :: '_' :: joinSep ['_', '_'] (y2 :: yr) := by
        simpa [joinSep] using h
      exact hxu (this ▸ (by simp : '_' ∈ y1 ++ '_' :: '_' :: joinSep ['_', '_'] (y2 :: yr)))
  | x1 :: x2 :: xr, [y], _, _, hxs, hys, h => by
      exfalso
      have hyu : '_' ∉ y := hys y (by simp)
      have : y = x1 ++ '_' :: '_' :: joinSep ['_', '_'] (x2 :: xr) := by
        simpa [joinSep] using h.symm
      exact hyu (this ▸ (by simp : '_' ∈ x1 ++ '_' :: '_' :: joinSep ['_', '_'] (x2 :: xr)))
  | x1 :: x2 :: xr, y1 :: y2 :: yr, _, _, hxs, hys, h => by
      have hx1 : '_' ∉ x1 := hxs x1 (by simp)
      have hy1 : '_' ∉ y1 := hys y1 (by simp)
      have h' : x1 ++ '_' :: ('_' :: joinSep ['_', '_'] (x2 :: xr)) =
          y1 ++ '_' :: ('_' :: joinSep ['_', '_'] (y2 :: yr)) := by
        simpa [joinSep] using h
      obtain ⟨he, ht⟩ := append_sep_inj '_' _ _ _ _ hx1 hy1 h'
      have hj : joinSep ['_', '_'] (x2 :: xr) = joinSep ['_', '_'] (y2 :: yr) :=
        (List.cons.inj ht).2
      have := joinSep_underscore_inj (x2 :: xr) (y2 :: yr) (by simp) (by simp)
        (fun s hm => hxs s (by simp [hm])) (fun s hm => hys s (by simp [hm])) hj
      rw [he, this]

theorem evenIdx_ne_nil {α : Type} : ∀ segs : List α, segs ≠ [] → evenIdx segs ≠ []
  | [], h => absurd rfl h
  | [_], _ => by simp [evenIdx]
  | _ :: _ :: _, _ => by simp [evenIdx]

theorem evenIdx_mem {α : Type} : ∀ (segs : List α) (s : α), s ∈ evenIdx segs → s ∈ segs
  | [], _, h => by simp [evenIdx] at h
  | [x], s, h => by simpa [evenIdx] using h
  | x :: y :: rest, s, h => by
      rcases (by simpa [evenIdx] using h : s = x ∨ s ∈ evenIdx rest) with rfl | hm
      · simp
      · simp [evenIdx_mem rest s hm]

/-- C3 counterexample: the path `a__b` (a single collection named `a__b`)
and the path `a/d/b` (collections `a` and `b` around document `d`) have
different collection-name sequences, yet identical normalized forms. -/
theorem normalizeCollectionPath_collision :
    normalizeCollectionPath "a__b" = normalizeCollectionPath "a/d/b" ∧
    evenIdx (splitOnChar '/' "a__b".data) ≠
      evenIdx (splitOnChar '/' "a/d/b".data) :=
  ⟨rfl, by decide⟩

/-- C3 (amended): over well-formed paths — a nonempty alternation of
slash-free segments — equal collection-name sequences always give equal
normalized forms; and, provided the collection names contain no underscore,
differing collection-name sequences give differing normalized forms.  The
underscore restriction is necessary: see
`normalizeCollectionPath_collision`. -/
theorem normalizeCollectionPath_separates (segs1 segs2 : List (List Char))
    (h1 : segs1 ≠ []) (h2 : segs2 ≠ [])
    (hs1 : ∀ s ∈ segs1, '/' ∉ s) (hs2 : ∀ s ∈ segs2, '/' ∉ s) :
    (evenIdx segs1 = evenIdx segs2 →
      normalizeCollectionPathChars (joinSep ['/'] segs1) =
        normalizeCollectionPathChars (joinSep ['/'] segs2)) ∧
    ((∀ s ∈ evenIdx segs1, '_' ∉ s) → (∀ s ∈ evenIdx segs2, '_' ∉ s) →
      normalizeCollectionPathChars (joinSep ['/'] segs1) =
        normalizeCollectionPathChars (joinSep ['/'] segs2) →
      evenIdx segs1 = evenIdx segs2) := by
  rw [normalizeCollectionPathChars_joinSep segs1 h1 hs1,
    normalizeCollectionPathChars_joinSep segs2 h2 hs2]
  constructor
  · intro h; rw [h]
  · intro hu1 hu2 h
    exact joinSep_underscore_inj _ _ (evenIdx_ne_nil segs1 h1)
      (evenIdx_ne_nil segs2 h2) hu1 hu2 h

/-- Witness for the amended C3 at the paths `users/1/orders` and
`users/2/orders` (same collection names, different document IDs). -/
theorem normalizeCollectionPath_separates_witness :
    normalizeCollectionPathChars
        (joinSep ['/'] ["users".data, "1".data, "orders".data]) =
      normalizeCollectionPathChars
        (joinSep ['/'] ["users".data, "2".data, "orders".data]) ∧
    evenIdx ["users".data, "1".data, "orders".data] =
      evenIdx ["users".data, "2".data, "orders".data] :=
  have h := normalizeCollectionPath_separates
    ["users".data, "1".data, "orders".data]
    ["users".data, "2".data, "orders".data]
    (by simp) (by simp) (by decide) (by decide)
  ⟨h.1 (by decide), by decide⟩

/-- `collectDocuments` reads the whole collection in order and issues
`⌊n / batchSize⌋ + 1` page fetches. -/
theorem collectDocuments_spec {α : Type} (batchSize : Nat) (hb : 0 < batchSize) :
    ∀ (n : Nat) (docs : List α), docs.length ≤ n →
      collectDocuments batchSize docs = (docs, docs.length / batchSize + 1) := by
  intro n
  induction n with
  | zero =>
    intro docs hlen
    have : docs = [] := List.length_eq_zero.mp (Nat.le_zero.mp hlen)
    subst this
    rw [collectDocuments]
    simp [Nat.div_eq_of_lt hb]
  | succ n ih =>
    intro docs hlen
    rw [collectDocuments]
    by_cases h0 : (docs.take batchSize).length = 0
    · rw [dif_pos h0]
      rw [List.length_take] at h0
      have hd : docs = [] := by
        rcases docs with _ | ⟨d, ds⟩
        · rfl
        · exfalso; simp at h0; omega
      subst hd
      simp
    · rw [dif_neg h0]
      by_cases h1 : (docs.take batchSize).length < batchSize
      · rw [dif_pos h1]
        rw [List.length_take] at h0 h1
        have hlt : docs.length < batchSize := by omega
        rw [List.take_of_length_le (le_of_lt hlt), Nat.div_eq_of_lt hlt]
      · rw [dif_neg h1]
        rw [List.length_take] at h0 h1
        have hge : batchSize ≤ docs.length := by omega
        have hrec := ih (docs.drop batchSize)
          (by rw [List.length_drop]; omega)
        simp only [hrec, List.length_drop]
        rw [List.take_append_drop, Nat.div_eq_sub_div hb hge]

/-- C6: for a finite collection of documents served in stable-order pages
of at most `batchSize` (with `batchSize ≥ 1`), `collectDocuments`
terminates (it is a total function), returns every document exactly once
in order, and fetches exactly `⌊n / batchSize⌋ + 1` pages — the last fetch
being the first page shorter than `batchSize`, the sole termination
signal.  In particular a collection of exactly `batchSize` documents takes
one extra fetch returning the empty page. -/
theorem collectDocuments_pagination {α : Type} (batchSize : Nat)
    (docs : List α) (hb : 0 < batchSize) :
    (collectDocuments batchSize docs).1 = docs ∧
    (collectDocuments batchSize docs).2 = docs.length / batchSize + 1 ∧
    (docs.length = batchSize →
      (collectDocuments batchSize docs).2 = 2 ∧
      (docs.drop batchSize).take batchSize = []) := by
  have h := collectDocuments_spec batchSize hb docs.length docs le_rfl
  refine ⟨by rw [h], by rw [h], fun hexact => ⟨?_, ?_⟩⟩
  · rw [h, hexact, Nat.div_self hb]
  · have hnil : docs.drop batchSize = [] := by
      apply List.eq_nil_of_length_eq_zero
      rw [List.length_drop, hexact]
      omega
    rw [hnil, List.take_nil]

/-- Witness for C6: batch size 2 over a three-document collection, and the
boundary case of a two-document collection. -/
theorem collectDocuments_pagination_witness :
    (collectDocuments 2 ["d1", "d2", "d3"]).1 = ["d1", "d2", "d3"] ∧
    (collectDocuments 2 ["d1", "d2"]).2 = 2 :=
  ⟨(collectDocuments_pagination 2 ["d1", "d2", "d3"] (by norm_num)).1,
   ((collectDocuments_pagination 2 ["d1", "d2"] (by norm_num)).2.2 rfl).1⟩

/-! ## Lemmas on the duplicate-name mechanism of `transformDocument` -/

theorem digitChar_inj_lt : ∀ d1 < 10, ∀ d2 < 10,
    Nat.digitChar d1 = Nat.digitChar d2 → d1 = d2 := by decide

theorem map_digitChar_inj : ∀ l1 l2 : List Nat,
    (∀ x ∈ l1, x < 10) → (∀ x ∈ l2, x < 10) →
    l1.map Nat.digitChar = l2.map Nat.digitChar → l1 = l2
  | [], [], _, _, _ => rfl
  | [], _ :: _, _, _, h => by simp at h
  | _ :: _, [], _, _, h => by simp at h
  | a :: l1, b :: l2, hb1, hb2, h => by
      simp only [List.map_cons, List.cons.injEq] at h
      have ha := digitChar_inj_lt a (hb1 a (by simp)) b (hb2 b (by simp)) h.1
      rw [ha, map_digitChar_inj l1 l2 (fun x hx => hb1 x (by simp [hx]))
        (fun x hx => hb2 x (by simp [hx])) h.2]

theorem digits_map_digitChar_eq_zero (n : Nat)
    (h : (Nat.digits 10 n).map Nat.digitChar = ['0']) : n = 0 := by
  have hd : Nat.digits 10 n = [0] := by
    rcases hdig : Nat.digits 10 n with _ | ⟨d, ds⟩
    · rw [hdig] at h; simp at h
    · rw [hdig] at h
      simp only [List.map_cons, List.cons.injEq] at h
      have hds : ds = [] := List.map_eq_nil_iff.mp h.2
      have hdlt : d < 10 := Nat.digits_lt_base (by norm_num) (by rw [hdig]; simp)
      have hd0 : d = 0 := digitChar_inj_lt d hdlt 0 (by norm_num) h.1
      rw [hds, hd0]
  have := Nat.ofDigits_digits 10 n
  rw [hd] at this
  simpa using this.symm

theorem natToString_injective : Function.Injective natToString := by
  intro m n h
  have hdata : (if m = 0 then ['0'] else ((Nat.digits 10 m).map Nat.digitChar).reverse) =
      (if n = 0 then ['0'] else ((Nat.digits 10 n).map Nat.digitChar).reverse) :=
    congrArg String.data h
  by_cases hm : m = 0 <;> by_cases hn : n = 0
  · rw [hm, hn]
  · exfalso
    rw [if_pos hm, if_neg hn] at hdata
    have hmap : (Nat.digits 10 n).map Nat.digitChar = ['0'] := by
      simpa using (congrArg List.reverse hdata).symm
    exact hn (digits_map_digitChar_eq_zero n hmap)
  · exfalso
    rw [if_neg hm, if_pos hn] at hdata
    have hmap : (Nat.digits 10 m).map Nat.digitChar = ['0'] := by
      simpa using congrArg List.reverse hdata
    exact hm (digits_map_digitChar_eq_zero m hmap)
  · rw [if_neg hm, if_neg hn] at hdata
    have hrev := congrArg List.reverse hdata
    simp only [List.reverse_reverse] at hrev
    have hdig := map_digitChar_inj _ _
      (fun x hx => Nat.digits_lt_base (by norm_num) hx)
      (fun x hx => Nat.digits_lt_base (by norm_num) hx) hrev
    rw [← Nat.ofDigits_digits 10 m, ← Nat.ofDigits_digits 10 n, hdig]

theorem candidate_inj (san : String) {i j : Nat}
    (h : san ++ "_" ++ natToString i = san ++ "_" ++ natToString j) : i = j := by
  apply natToString_injective
  have hd := congrArg String.data h
  simp only [String.data_append, List.append_assoc] at hd
  have h2 := List.append_cancel_left (List.append_cancel_left hd)
  exact congrArg String.mk h2

theorem dedupeFieldAux_shape (keys : List String) (san : String) :
    ∀ fuel counter, ∃ j, counter ≤ j ∧
      dedupeFieldAux keys san fuel counter = san ++ "_" ++ natToString j
  | 0, counter => ⟨counter, le_rfl, rfl⟩
  | fuel + 1, counter => by
      simp only [dedupeFieldAux]
      split
      · obtain ⟨j, hj, he⟩ := dedupeFieldAux_shape keys san fuel (counter + 1)
        exact ⟨j, by omega, he⟩
      · exact ⟨counter, le_rfl, rfl⟩

theorem dedupeFieldAux_not_mem (keys : List String) (san : String) :
    ∀ fuel counter,
      (∃ j, counter ≤ j ∧ j < counter + fuel ∧
        (san ++ "_" ++ natToString j) ∉ keys) →
      dedupeFieldAux keys san fuel counter ∉ keys
  | 0, counter, ⟨j, hj1, hj2, _⟩ => by omega
  | fuel + 1, counter, ⟨j, hj1, hj2, hj3⟩ => by
      simp only [dedupeFieldAux]
      by_cases hc : (san ++ "_" ++ natToString counter) ∈ keys
      · rw [if_pos (by simpa using hc)]
        apply dedupeFieldAux_not_mem keys san fuel (counter + 1)
        refine ⟨j, ?_, by omega, hj3⟩
        rcases Nat.eq_or_lt_of_le hj1 with rfl | hlt
        · exact absurd hc hj3
        · omega
      · rw [if_neg (by simpa using hc)]
        exact hc

theorem exists_fresh_candidate (keys : List String) (san : String) :
    ∃ j, 1 ≤ j ∧ j < 1 + (keys.length + 1) ∧
      (san ++ "_" ++ natToString j) ∉ keys := by
  by_contra hno
  push_neg at hno
  have hsub : ∀ x ∈ (List.range (keys.length + 1)).map
      (fun i => san ++ "_" ++ natToString (i + 1)), x ∈ keys := by
    intro x hx
    obtain ⟨i, hi, rfl⟩ := List.mem_map.mp hx
    have hi' := List.mem_range.mp hi
    exact hno (i + 1) (by omega) (by omega)
  have hinj : Function.Injective (fun i : Nat => san ++ "_" ++ natToString (i + 1)) := by
    intro a b hab
    have := candidate_inj san hab
    omega
  have hnodup : ((List.range (keys.length + 1)).map
      (fun i => san ++ "_" ++ natToString (i + 1))).Nodup :=
    (List.nodup_range _).map hinj
  have hcard : ((List.range (keys.length + 1)).map
      (fun i => san ++ "_" ++ natToString (i + 1))).length ≤ keys.length := by
    have hfs : ((List.range (keys.length + 1)).map
        (fun i => san ++ "_" ++ natToString (i + 1))).toFinset ⊆ keys.toFinset :=
      fun x hx => List.mem_toFinset.mpr (hsub x (List.mem_toFinset.mp hx))
    have h2 := Finset.card_le_card hfs
    rw [List.toFinset_card_of_nodup hnodup] at h2
    exact le_trans h2 (List.toFinset_card_le keys)
  simp only [List.length_map, List.length_range] at hcard
  omega

theorem dedupeField_not_mem (keys : List String) (san : String)
    (hsan : san ≠ "id") : dedupeField keys san ∉ keys := by
  by_cases hc : san ∈ keys
  · have he : dedupeField keys san = dedupeFieldAux keys san (keys.length + 1) 1 := by
      simp [dedupeField, hsan, hc]
    rw [he]
    exact dedupeFieldAux_not_mem keys san (keys.length + 1) 1
      (exists_fresh_candidate keys san)
  · have he : dedupeField keys san = san := by simp [dedupeField, hc]
    rw [he]
    exact hc

theorem dedupeField_id (keys : List String) : dedupeField keys "id" = "id" := by
  simp [dedupeField]

theorem dedupeField_shape (keys : List String) (san : String) :
    dedupeField keys san = san ∨
    ∃ j, 1 ≤ j ∧ dedupeField keys san = san ++ "_" ++ natToString j := by
  unfold dedupeField
  split
  · exact Or.inl rfl
  · obtain ⟨j, hj, he⟩ := dedupeFieldAux_shape keys san (keys.length + 1) 1
    exact Or.inr ⟨j, hj, he⟩

theorem keysOf_cons {α : Type} (g : String) (u : α) (rest : List (String × α)) :
    keysOf ((g, u) :: rest) = g :: keysOf rest := rfl

theorem keysOf_upsert_mem {α : Type} :
    ∀ (m : List (String × α)) (k : String) (v : α), k ∈ keysOf m →
      keysOf (upsert m k v) = keysOf m
  | [], k, v, h => by simp [keysOf] at h
  | (g, u) :: rest, k, v, h => by
      simp only [upsert]
      by_cases hg : g = k
      · rw [if_pos hg, keysOf_cons, keysOf_cons]
      · rw [keysOf_cons] at h
        have h' : k ∈ keysOf rest := by
          rcases List.mem_cons.mp h with he | hm
          · exact absurd he.symm hg
          · exact hm
        rw [if_neg hg, keysOf_cons, keysOf_cons, keysOf_upsert_mem rest k v h']

theorem keysOf_upsert_not_mem {α : Type} :
    ∀ (m : List (String × α)) (k : String) (v : α), k ∉ keysOf m →
      keysOf (upsert m k v) = keysOf m ++ [k]
  | [], k, v, _ => by simp [upsert, keysOf]
  | (g, u) :: rest, k, v, h => by
      rw [keysOf_cons] at h
      have hg : ¬(g = k) := fun he => h (by rw [he]; exact List.mem_cons_self _ _)
      have h' : k ∉ keysOf rest := fun hm => h (List.mem_cons_of_mem _ hm)
      simp only [upsert]
      rw [if_neg hg, keysOf_cons, keysOf_cons, keysOf_upsert_not_mem rest k v h']
      rfl

theorem lookupVal_upsert_self {α : Type} :
    ∀ (m : List (String × α)) (k : String) (v : α),
      lookupVal (upsert m k v) k = some v
  | [], k, v => by simp [upsert, lookupVal]
  | (g, u) :: rest, k, v => by
      simp only [upsert]
      by_cases hg : g = k
      · rw [if_pos hg]
        simp only [lookupVal]
        rw [if_pos hg]
      · rw [if_neg hg]
        simp only [lookupVal]
        rw [if_neg hg]
        exact lookupVal_upsert_self rest k v

theorem lookupVal_upsert_other {α : Type} :
    ∀ (m : List (String × α)) (k k' : String) (v : α), k' ≠ k →
      lookupVal (upsert m k v) k' = lookupVal m k'
  | [], k, k', v, h => by
      simp only [upsert, lookupVal]
      rw [if_neg (fun he : k = k' => h he.symm)]
  | (g, u) :: rest, k, k', v, h => by
      simp only [upsert]
      by_cases hg : g = k
      · rw [if_pos hg]
        have hgk : ¬(g = k') := fun he => h (hg.symm.trans he).symm
        simp only [lookupVal, if_neg hgk]
      · rw [if_neg hg]
        simp only [lookupVal]
        by_cases hg' : g = k'
        · simp only [if_pos hg']
        · simp only [if_neg hg']
          exact lookupVal_upsert_other rest k k' v h

theorem keysOf_upsert_nodup {α : Type} (m : List (String × α)) (k : String)
    (v : α) (h : (keysOf m).Nodup) : (keysOf (upsert m k v)).Nodup := by
  by_cases hm : k ∈ keysOf m
  · rw [keysOf_upsert_mem m k v hm]; exact h
  · rw [keysOf_upsert_not_mem m k v hm]
    simp [List.nodup_append, h, hm]

theorem keysOf_upsert_subset {α : Type} (m : List (String × α)) (k k' : String)
    (v : α) (h : k' ∈ keysOf (upsert m k v)) : k' ∈ keysOf m ∨ k' = k := by
  by_cases hm : k ∈ keysOf m
  · rw [keysOf_upsert_mem m k v hm] at h; exact Or.inl h
  · rw [keysOf_upsert_not_mem m k v hm] at h
    simpa using h

theorem transformDocStep_inv (acc : TransformedDoc) (fv : String × JSValue)
    (h1 : (keysOf acc.data).Nodup) (h2 : "id" ∈ keysOf acc.data)
    (h3 : keysOf acc.schema = keysOf acc.data) :
    (keysOf (transformDocStep acc fv).data).Nodup ∧
    "id" ∈ keysOf (transformDocStep acc fv).data ∧
    keysOf (transformDocStep acc fv).schema = keysOf (transformDocStep acc fv).data ∧
    (sanitizeFieldName fv.1 ≠ "id" →
      lookupVal (transformDocStep acc fv).data "id" = lookupVal acc.data "id" ∧
      lookupVal (transformDocStep acc fv).schema "id" = lookupVal acc.schema "id") ∧
    (sanitizeFieldName fv.1 = "id" →
      lookupVal (transformDocStep acc fv).data "id" = some (transformValue fv.2).1 ∧
      lookupVal (transformDocStep acc fv).schema "id" = some (transformValue fv.2).2) ∧
    (∀ k ∈ keysOf (transformDocStep acc fv).data,
      k ∈ keysOf acc.data ∨ k = sanitizeFieldName fv.1 ∨
      ∃ j, 1 ≤ j ∧ k = sanitizeFieldName fv.1 ++ "_" ++ natToString j) := by
  by_cases hid : sanitizeFieldName fv.1 = "id"
  · have hff : dedupeField (acc.data.map Prod.fst) (sanitizeFieldName fv.1) = "id" := by
      rw [hid]; exact dedupeField_id _
    have hdata : (transformDocStep acc fv).data =
        upsert acc.data "id" (transformValue fv.2).1 := by
      simp only [transformDocStep, hff]
    have hschema : (transformDocStep acc fv).schema =
        upsert acc.schema "id" (transformValue fv.2).2 := by
      simp only [transformDocStep, hff]
    have hks : keysOf (upsert acc.data "id" (transformValue fv.2).1) = keysOf acc.data :=
      keysOf_upsert_mem acc.data "id" _ h2
    have hks2 : keysOf (upsert acc.schema "id" (transformValue fv.2).2) = keysOf acc.schema :=
      keysOf_upsert_mem acc.schema "id" _ (h3 ▸ h2)
    refine ⟨?_, ?_, ?_, fun hne => absurd hid hne, fun _ => ⟨?_, ?_⟩, ?_⟩
    · rw [hdata, hks]; exact h1
    · rw [hdata, hks]; exact h2
    · rw [hdata, hschema, hks, hks2]; exact h3
    · rw [hdata]; exact lookupVal_upsert_self acc.data "id" _
    · rw [hschema]; exact lookupVal_upsert_self acc.schema "id" _
    · intro k hk
      rw [hdata, hks] at hk
      exact Or.inl hk
  · have hffm : dedupeField (acc.data.map Prod.fst) (sanitizeFieldName fv.1) ∉
        keysOf acc.data :=
      dedupeField_not_mem (acc.data.map Prod.fst) (sanitizeFieldName fv.1) hid
    set ff := dedupeField (acc.data.map Prod.fst) (sanitizeFieldName fv.1) with hffdef
    have hffid : ff ≠ "id" := fun he => hffm (he ▸ h2)
    have hdata : (transformDocStep acc fv).data =
        upsert acc.data ff (transformValue fv.2).1 := by
      simp only [transformDocStep, hffdef]
    have hschema : (transformDocStep acc fv).schema =
        upsert acc.schema ff (transformValue fv.2).2 := by
      simp only [transformDocStep, hffdef]
    have hks : keysOf (upsert acc.data ff (transformValue fv.2).1) =
        keysOf acc.data ++ [ff] :=
      keysOf_upsert_not_mem acc.data ff _ hffm
    have hks2 : keysOf (upsert acc.schema ff (transformValue fv.2).2) =
        keysOf acc.schema ++ [ff] :=
      keysOf_upsert_not_mem acc.schema ff _ (h3 ▸ hffm)
    refine ⟨?_, ?_, ?_, fun _ => ⟨?_, ?_⟩, fun he => absurd he hid, ?_⟩
    · rw [hdata]; exact keysOf_upsert_nodup acc.data ff _ h1
    · rw [hdata, hks]; exact List.mem_append_left _ h2
    · rw [hdata, hschema, hks, hks2, h3]
    · rw [hdata]; exact lookupVal_upsert_other acc.data ff "id" _ (Ne.symm hffid)
    · rw [hschema]; exact lookupVal_upsert_other acc.schema ff "id" _ (Ne.symm hffid)
    · intro k hk
      rw [hdata] at hk
      rcases keysOf_upsert_subset acc.data ff k _ hk with hmem | rfl
      · exact Or.inl hmem
      · rcases dedupeField_shape (acc.data.map Prod.fst) (sanitizeFieldName fv.1) with
          he | ⟨j, hj, he⟩
        · exact Or.inr (Or.inl (hffdef ▸ he))
        · exact Or.inr (Or.inr ⟨j, hj, hffdef ▸ he⟩)

theorem transformDocFold_spec :
    ∀ (docData : List (String × JSValue)) (acc : TransformedDoc),
      (keysOf acc.data).Nodup → "id" ∈ keysOf acc.data →
      keysOf acc.schema = keysOf acc.data →
      (keysOf (docData.foldl transformDocStep acc).data).Nodup ∧
      "id" ∈ keysOf (docData.foldl transformDocStep acc).data ∧
      keysOf (docData.foldl transformDocStep acc).schema =
        keysOf (docData.foldl transformDocStep acc).data ∧
      (lastIdField docData = none →
        lookupVal (docData.foldl transformDocStep acc).data "id" =
          lookupVal acc.data "id" ∧
        lookupVal (docData.foldl transformDocStep acc).schema "id" =
          lookupVal acc.schema "id") ∧
      (∀ g, lastIdField docData = some g →
        lookupVal (docData.foldl transformDocStep acc).data "id" =
          some (transformValue g.2).1 ∧
        lookupVal (docData.foldl transformDocStep acc).schema "id" =
          some (transformValue g.2).2) ∧
      (∀ k ∈ keysOf (docData.foldl transformDocStep acc).data,
        k ∈ keysOf acc.data ∨ ∃ fv ∈ docData,
          k = sanitizeFieldName fv.1 ∨
          ∃ j, 1 ≤ j ∧ k = sanitizeFieldName fv.1 ++ "_" ++ natToString j)
  | [], acc, h1, h2, h3 => by
      refine ⟨h1, h2, h3, fun _ => ⟨rfl, rfl⟩, fun g hg => ?_, fun k hk => Or.inl hk⟩
      simp [lastIdField] at hg
  | fv :: rest, acc, h1, h2, h3 => by
      obtain ⟨s1, s2, s3, s4, s5, s6⟩ := transformDocStep_inv acc fv h1 h2 h3
      obtain ⟨r1, r2, r3, r4, r5, r6⟩ :=
        transformDocFold_spec rest (transformDocStep acc fv) s1 s2 s3
      rw [List.foldl_cons]
      refine ⟨r1, r2, r3, ?_, ?_, ?_⟩
      · intro hnone
        rcases hrest : lastIdField rest with _ | g
        · have hfv : sanitizeFieldName fv.1 ≠ "id" := by
            intro hid
            simp only [lastIdField, hrest, if_pos hid] at hnone
            exact Option.noConfusion hnone
          obtain ⟨e1, e2⟩ := r4 hrest
          obtain ⟨f1, f2⟩ := s4 hfv
          exact ⟨e1.trans f1, e2.trans f2⟩
        · simp only [lastIdField, hrest] at hnone
          exact Option.noConfusion hnone
      · intro g hg
        rcases hrest : lastIdField rest with _ | g2
        · simp only [lastIdField, hrest] at hg
          by_cases hid : sanitizeFieldName fv.1 = "id"
          · rw [if_pos hid] at hg
            have hfv : fv = g := Option.some.inj hg
            obtain ⟨e1, e2⟩ := r4 hrest
            obtain ⟨f1, f2⟩ := s5 hid
            rw [← hfv]
            exact ⟨e1.trans f1, e2.trans f2⟩
          · rw [if_neg hid] at hg
            exact Option.noConfusion hg
        · simp only [lastIdField, hrest] at hg
          have hge : g2 = g := Option.some.inj hg
          subst hge
          exact r5 g2 hrest
      · intro k hk
        rcases r6 k hk with hmem | ⟨fv2, hfv2, hsh⟩
        · rcases s6 k hmem with hmem2 | hsh2
          · exact Or.inl hmem2
          · exact Or.inr ⟨fv, List.mem_cons_self _ _, hsh2⟩
        · exact Or.inr ⟨fv2, List.mem_cons_of_mem _ hfv2, hsh⟩

/-- C10: if a document field's sanitized name is exactly `id`, the (last)
such field overwrites the synthetic document-identifier column and its
inferred type replaces the synthetic `NVARCHAR(255)` — the numeric-suffix
dedupe mechanism is bypassed for `id`.  With no such field, the `id`
column holds the document identifier with type `NVARCHAR(255)`.  Output
column names are pairwise distinct, and every non-`id` column is a
sanitized field name, possibly with a numeric suffix `_j` (`j ≥ 1`). -/
theorem transformDocument_id_overwrite (docId : String)
    (docData : List (String × JSValue)) :
    (∀ g, lastIdField docData = some g →
      lookupVal (transformDocument docId docData).data "id" =
        some (transformValue g.2).1 ∧
      lookupVal (transformDocument docId docData).schema "id" =
        some (transformValue g.2).2) ∧
    (lastIdField docData = none →
      lookupVal (transformDocument docId docData).data "id" = some (.str docId) ∧
      lookupVal (transformDocument docId docData).schema "id" = some .NV255) ∧
    (keysOf (transformDocument docId docData).data).Nodup ∧
    (∀ k ∈ keysOf (transformDocument docId docData).data,
      k = "id" ∨ ∃ fv ∈ docData, k = sanitizeFieldName fv.1 ∨
        ∃ j, 1 ≤ j ∧ k = sanitizeFieldName fv.1 ++ "_" ++ natToString j) := by
  simp only [transformDocument]
  obtain ⟨r1, r2, r3, r4, r5, r6⟩ := transformDocFold_spec docData
    { data := [("id", .str docId)], schema := [("id", .NV255)], fieldMapping := [] }
    (by simp [keysOf]) (by simp [keysOf]) (by simp [keysOf])
  refine ⟨fun g hg => r5 g hg, fun hn => ?_, r1, fun k hk => ?_⟩
  · obtain ⟨e1, e2⟩ := r4 hn
    exact ⟨e1.trans (by simp [lookupVal]), e2.trans (by simp [lookupVal])⟩
  · rcases r6 k hk with hmem | h
    · left; simpa [keysOf] using hmem
    · right; exact h

/-- Witness for C10: the document `u1` with fields `id`, `a` and `a!`
(the latter two colliding on the sanitized name `a`), and the document
`u2` with no `id`-like field. -/
theorem transformDocument_id_overwrite_witness :
    lookupVal (transformDocument "u1"
      [("id", JSValue.num 5), ("a", .null), ("a!", .bool true)]).data "id" =
      some (.num 5) ∧
    lookupVal (transformDocument "u1"
      [("id", JSValue.num 5), ("a", .null), ("a!", .bool true)]).schema "id" =
      some .INT ∧
    (keysOf (transformDocument "u1"
      [("id", JSValue.num 5), ("a", .null), ("a!", .bool true)]).data).Nodup ∧
    lookupVal (transformDocument "u2" [("name", JSValue.str "x")]).data "id" =
      some (.str "u2") := by
  have h1 := transformDocument_id_overwrite "u1"
    [("id", JSValue.num 5), ("a", .null), ("a!", .bool true)]
  have h2 := transformDocument_id_overwrite "u2" [("name", JSValue.str "x")]
  refine ⟨?_, ?_, h1.2.2.1, (h2.2.1 rfl).1⟩
  · exact ((h1.1 ("id", .num 5) rfl).1).trans rfl
  · exact ((h1.1 ("id", .num 5) rfl).2).trans rfl

/-- C2 counterexample: running the pipeline twice over the same unchanged
document set at two different clock readings produces artifacts that are
not byte-identical — the embedded export timestamp (`exportedAt` in the
JSON file, `-- Exported at:` in the SQL file) differs. -/
theorem export_rerun_not_byte_identical :
    exportToJsonContent "2024-01-01T00:00:00.000Z" "users" [] ≠
      exportToJsonContent "2024-01-02T00:00:00.000Z" "users" [] ∧
    exportToSqlContent defaultSqlConfig "2024-01-01T00:00:00.000Z" "users" [] ≠
      exportToSqlContent defaultSqlConfig "2024-01-02T00:00:00.000Z" "users" [] := by
  constructor <;> decide

/-- C2 (amended): re-export is deterministic up to the embedded export
timestamp: each artifact is a timestamp-independent prefix, then the clock
reading, then a timestamp-independent remainder carrying the schema, the
row order and the serialized values.  In particular two runs over the same
unchanged document set with the same clock reading are byte-identical, and
two runs at different clock readings differ only in the timestamp bytes. -/
theorem exportToJsonContent_decomp (now collectionName : String)
    (documents : List SDoc) :
    exportToJsonContent now collectionName documents =
      jsonArtifactPre collectionName ++ jsonEscapeString now ++
        jsonArtifactPost documents := by
  have hL : exportToJsonContent now collectionName documents =
      "\x7b\n" ++
        (spaces 2 ++ jsonQuote "collection" ++ ": " ++ jsonQuote collectionName ++
          ",\n" ++
          (spaces 2 ++ jsonQuote "exportedAt" ++ ": " ++ jsonQuote now ++ ",\n" ++
            (spaces 2 ++ jsonQuote "count" ++ ": " ++
              qToString (documents.length : ℚ) ++ ",\n" ++
              (spaces 2 ++ jsonQuote "documents" ++ ": " ++
                jsonStringifyPretty 2 (.arr (documents.map (fun d =>
                  .obj (("_id", JSValue.str d.id) :: ("_path", JSValue.str d.path) ::
                    (transformDocument d.id d.data).data)))))))) ++
        "\n" ++ spaces 0 ++ "\x7d" := rfl
  rw [hL]
  simp only [jsonArtifactPre, jsonArtifactPost, jsonQuote, String.append_assoc]

theorem exportToSqlContent_decomp (cfg : SqlConfig)
    (now collectionName : String) (documents : List SDoc) :
    exportToSqlContent cfg now collectionName documents =
      sqlArtifactPre collectionName ++ now ++
        sqlArtifactPost cfg collectionName documents := by
  dsimp only [exportToSqlContent, sqlArtifactPre, sqlArtifactPost]
  simp only [String.append_assoc]

theorem export_rerun_deterministic (cfg : SqlConfig)
    (now collectionName : String) (documents : List SDoc) :
    exportToJsonContent now collectionName documents =
      jsonArtifactPre collectionName ++ jsonEscapeString now ++
        jsonArtifactPost documents ∧
    exportToSqlContent cfg now collectionName documents =
      sqlArtifactPre collectionName ++ now ++
        sqlArtifactPost cfg collectionName documents :=
  ⟨exportToJsonContent_decomp now collectionName documents,
   exportToSqlContent_decomp cfg now collectionName documents⟩

theorem upsertDocs_keys_mem :
    ∀ (m : List (String × List SDoc)) (k : String) (v : List SDoc),
      k ∈ keysOf m → keysOf (upsertDocs m k v) = keysOf m
  | [], k, v, h => by simp [keysOf] at h
  | (g, u) :: rest, k, v, h => by
      simp only [upsertDocs]
      by_cases hg : g = k
      · rw [if_pos hg, keysOf_cons, keysOf_cons]
      · rw [keysOf_cons] at h
        have h2 : k ∈ keysOf rest := by
          rcases List.mem_cons.mp h with he | hm
          · exact absurd he.symm hg
          · exact hm
        rw [if_neg hg, keysOf_cons, keysOf_cons, upsertDocs_keys_mem rest k v h2]

theorem upsertDocs_keys_not_mem :
    ∀ (m : List (String × List SDoc)) (k : String) (v : List SDoc),
      k ∉ keysOf m → keysOf (upsertDocs m k v) = keysOf m ++ [k]
  | [], k, v, _ => by simp [upsertDocs, keysOf]
  | (g, u) :: rest, k, v, h => by
      rw [keysOf_cons] at h
      have hg : ¬(g = k) := fun he => h (by rw [he]; exact List.mem_cons_self _ _)
      have h2 : k ∉ keysOf rest := fun hm => h (List.mem_cons_of_mem _ hm)
      simp only [upsertDocs]
      rw [if_neg hg, keysOf_cons, keysOf_cons, upsertDocs_keys_not_mem rest k v h2]
      rfl

theorem upsertDocs_nodup (m : List (String × List SDoc)) (k : String)
    (v : List SDoc) (h : (keysOf m).Nodup) : (keysOf (upsertDocs m k v)).Nodup := by
  by_cases hm : k ∈ keysOf m
  · rw [upsertDocs_keys_mem m k v hm]; exact h
  · rw [upsertDocs_keys_not_mem m k v hm]
    simp [List.nodup_append, h, hm]

theorem upsertDocs_nonempty :
    ∀ (m : List (String × List SDoc)) (k : String) (v : List SDoc),
      (∀ p ∈ m, p.2 ≠ []) → v ≠ [] → ∀ p ∈ upsertDocs m k v, p.2 ≠ []
  | [], k, v, _, hv, p, hp => by
      simp only [upsertDocs, List.mem_singleton] at hp
      rw [hp]
      exact hv
  | (g, u) :: rest, k, v, hm, hv, p, hp => by
      simp only [upsertDocs] at hp
      by_cases hg : g = k
      · rw [if_pos hg] at hp
        rcases List.mem_cons.mp hp with he | hmem
        · rw [he]
          intro hcontra
          exact hv (List.append_eq_nil.mp hcontra).2
        · exact hm p (List.mem_cons_of_mem _ hmem)
      · rw [if_neg hg] at hp
        rcases List.mem_cons.mp hp with he | hmem
        · rw [he]; exact hm (g, u) (List.mem_cons_self _ _)
        · exact upsertDocs_nonempty rest k v
            (fun q hq => hm q (List.mem_cons_of_mem _ hq)) hv p hmem

/-- Invariant of the BFS loop: the accumulated map keeps distinct table
keys and only nonempty record lists. -/
theorem streamLoop_inv (store : Store) :
    ∀ (fuel : Nat) (queue : List (String × Nat)) (processed : List String)
      (acc m : List (String × List SDoc)),
      streamLoop store fuel queue processed acc = some m →
      (keysOf acc).Nodup → (∀ p ∈ acc, p.2 ≠ []) →
      (keysOf m).Nodup ∧ (∀ p ∈ m, p.2 ≠ [])
  | 0, queue, processed, acc, m, h, _, _ => by
      simp [streamLoop] at h
  | fuel + 1, [], processed, acc, m, h, h1, h2 => by
      simp only [streamLoop, Option.some.injEq] at h
      rw [← h]
      exact ⟨h1, h2⟩
  | fuel + 1, (path, depth) :: queue, processed, acc, m, h, h1, h2 => by
      simp only [streamLoop] at h
      by_cases hp : processed.contains path
      · rw [if_pos hp] at h
        exact streamLoop_inv store fuel queue processed acc m h h1 h2
      · rw [if_neg hp] at h
        by_cases hd : (store.docs path).length > 0
        · rw [if_pos hd] at h
          have hne : store.docs path ≠ [] := by
            intro hcontra
            rw [hcontra] at hd
            simp at hd
          exact streamLoop_inv store fuel _ _ _ m h
            (upsertDocs_nodup acc _ _ h1)
            (upsertDocs_nonempty acc _ _ h2 hne)
        · rw [if_neg hd] at h
          exact streamLoop_inv store fuel queue _ acc m h h1 h2

theorem countJsonFor_append (a b : List SinkEvent) (k : String) :
    countJsonFor (a ++ b) k = countJsonFor a k + countJsonFor b k :=
  List.countP_append _ _ _

theorem countSqlFor_append (a b : List SinkEvent) (k : String) :
    countSqlFor (a ++ b) k = countSqlFor a k + countSqlFor b k :=
  List.countP_append _ _ _

theorem countJsonFor_json_singleton (g : String) (docs : List SDoc) (k : String) :
    countJsonFor [.json g docs] k = if g = k then 1 else 0 := by
  by_cases hk : g = k <;> simp [countJsonFor, hk]

theorem countSqlFor_sql_singleton (g : String) (docs : List SDoc) (k : String) :
    countSqlFor [.sql g docs] k = if g = k then 1 else 0 := by
  by_cases hk : g = k <;> simp [countSqlFor, hk]

theorem countJsonFor_ite_sql (c : Prop) [Decidable c] (g : String)
    (docs : List SDoc) (k : String) :
    countJsonFor (if c then [SinkEvent.sql g docs] else []) k = 0 := by
  split <;> simp [countJsonFor]

theorem countSqlFor_ite_json (c : Prop) [Decidable c] (g : String)
    (docs : List SDoc) (k : String) :
    countSqlFor (if c then [SinkEvent.json g docs] else []) k = 0 := by
  split <;> simp [countSqlFor]

/-- Flush counting: with distinct keys and nonempty accumulators, each
table receives exactly one JSON invocation and one SQL invocation when its
format is requested (zero otherwise), and no invocation carries zero
records. -/
theorem flushPhase_spec (format : String) :
    ∀ m : List (String × List SDoc), (keysOf m).Nodup → (∀ p ∈ m, p.2 ≠ []) →
      (∀ e ∈ flushPhase format m, e.records ≠ []) ∧
      (∀ k, countJsonFor (flushPhase format m) k =
        if (format = "json" ∨ format = "both") ∧ k ∈ keysOf m then 1 else 0) ∧
      (∀ k, countSqlFor (flushPhase format m) k =
        if (format = "sql" ∨ format = "both") ∧ k ∈ keysOf m then 1 else 0)
  | [], _, _ => by
      refine ⟨fun e he => ?_, fun k => ?_, fun k => ?_⟩ <;>
        simp [flushPhase, countJsonFor, countSqlFor, keysOf] at *
  | (g, docs) :: rest, h1, h2 => by
      have hgne : docs ≠ [] := h2 (g, docs) (List.mem_cons_self _ _)
      have hlen : ¬(docs.length = 0) := fun hc => hgne (List.length_eq_zero.mp hc)
      rw [keysOf_cons] at h1
      have h1r : (keysOf rest).Nodup := (List.nodup_cons.mp h1).2
      have hgk : g ∉ keysOf rest := (List.nodup_cons.mp h1).1
      have h2r : ∀ p ∈ rest, p.2 ≠ [] := fun p hp => h2 p (List.mem_cons_of_mem _ hp)
      obtain ⟨ih1, ih2, ih3⟩ := flushPhase_spec format rest h1r h2r
      have hflush : flushPhase format ((g, docs) :: rest) =
          ((if format = "json" ∨ format = "both" then [SinkEvent.json g docs]
            else []) ++
           (if format = "sql" ∨ format = "both" then [SinkEvent.sql g docs]
            else [])) ++
          flushPhase format rest := by
        simp [flushPhase, hlen]
      refine ⟨?_, ?_, ?_⟩
      · intro e he
        rw [hflush] at he
        rcases List.mem_append.mp he with hh | ht
        · rcases List.mem_append.mp hh with hj | hs
          · by_cases hf : format = "json" ∨ format = "both"
            · rw [if_pos hf, List.mem_singleton] at hj
              rw [hj]; exact hgne
            · rw [if_neg hf] at hj
              exact absurd hj (List.not_mem_nil e)
          · by_cases hf : format = "sql" ∨ format = "both"
            · rw [if_pos hf, List.mem_singleton] at hs
              rw [hs]; exact hgne
            · rw [if_neg hf] at hs
              exact absurd hs (List.not_mem_nil e)
        · exact ih1 e ht
      · intro k
        rw [hflush, countJsonFor_append, countJsonFor_append,
          countJsonFor_ite_sql, ih2 k]
        by_cases hf : format = "json" ∨ format = "both"
        · rw [if_pos hf, countJsonFor_json_singleton]
          by_cases hk : g = k
          · subst hk
            simp [hgk, hf, keysOf_cons]
          · simp [hf, keysOf_cons, hk, Ne.symm hk]
        · rw [if_neg hf]
          simp [countJsonFor, hf]
      · intro k
        rw [hflush, countSqlFor_append, countSqlFor_append,
          countSqlFor_ite_json, ih3 k]
        by_cases hs : format = "sql" ∨ format = "both"
        · rw [if_pos hs, countSqlFor_sql_singleton]
          by_cases hk : g = k
          · subst hk
            simp [hgk, hs, keysOf_cons]
          · simp [hs, keysOf_cons, hk, Ne.symm hk]
        · rw [if_neg hs]
          simp [countSqlFor, hs]

/-- C8: flush discipline of the traversal engine.  Whenever the BFS loop
drains within its fuel, the sink invocations of `streamCollections` are
exactly the flush of the final accumulated map (sinks run only after the
queue has fully drained), every invocation carries at least one record,
and each accumulated LogicalTable receives exactly one JSON-writer
invocation and exactly one SQL-writer invocation when its format is
requested, and none otherwise. -/
theorem streamCollections_flush_discipline (store : Store) (fuel : Nat)
    (root format : String) (events : List SinkEvent)
    (h : streamCollections store fuel root format = some events) :
    (∀ e ∈ events, e.records ≠ []) ∧
    ∃ m, streamLoop store fuel [(root, 0)] [] [] = some m ∧
      events = flushPhase format m ∧
      (∀ k, countJsonFor events k =
        if (format = "json" ∨ format = "both") ∧ k ∈ keysOf m then 1 else 0) ∧
      (∀ k, countSqlFor events k =
        if (format = "sql" ∨ format = "both") ∧ k ∈ keysOf m then 1 else 0) := by
  unfold streamCollections at h
  cases hm : streamLoop store fuel [(root, 0)] [] [] with
  | none => rw [hm] at h; simp at h
  | some m =>
    rw [hm] at h
    simp only [Option.map_some', Option.some.injEq] at h
    obtain ⟨inv1, inv2⟩ := streamLoop_inv store fuel _ _ _ m hm
      (by simp [keysOf]) (by simp)
    obtain ⟨f1, f2, f3⟩ := flushPhase_spec format m inv1 inv2
    rw [← h]
    exact ⟨f1, m, rfl, rfl, f2, f3⟩

/-- Witness for C8 on the demonstration store. -/
theorem streamCollections_flush_discipline_witness :
    streamCollections demoStore 10 "users" "both" = some demoEvents ∧
    ∀ e ∈ demoEvents, SinkEvent.records e ≠ [] :=
  ⟨rfl, (streamCollections_flush_discipline demoStore 10 "users" "both"
    demoEvents rfl).1⟩

theorem countClear_append (a b : List DriverEvent) :
    countClear (a ++ b) = countClear a + countClear b :=
  List.countP_append _ _ _

theorem countClear_cons_run (c : String) (ok : Bool) (t : List DriverEvent) :
    countClear (DriverEvent.runCollection c ok :: t) = countClear t := by
  simp [countClear]

theorem countClear_cons_save (st : ExportState) (t : List DriverEvent) :
    countClear (DriverEvent.saveState st :: t) = countClear t := by
  simp [countClear]

theorem runLoop_savesAfterRuns (outcome : String → Option String)
    (continueOnError : Bool) :
    ∀ (remaining : List String) (st : ExportState) (tail : List DriverEvent),
      savesAfterRuns tail = true →
      savesAfterRuns ((runLoop outcome continueOnError remaining st).1 ++ tail) =
        true
  | [], st, tail, h => by simpa [runLoop] using h
  | c :: rest, st, tail, h => by
      cases houtcome : outcome c with
      | none =>
        have he : (runLoop outcome continueOnError (c :: rest) st).1 =
            DriverEvent.runCollection c true ::
            DriverEvent.saveState { st with completed := st.completed ++ [c] } ::
            (runLoop outcome continueOnError rest
              { st with completed := st.completed ++ [c] }).1 := by
          simp [runLoop, houtcome]
        rw [he, List.cons_append, List.cons_append]
        show savesAfterRuns ((runLoop outcome continueOnError rest _).1 ++ tail) = true
        exact runLoop_savesAfterRuns outcome continueOnError rest _ tail h
      | some msg =>
        by_cases hc : continueOnError = true
        · have he : (runLoop outcome continueOnError (c :: rest) st).1 =
              DriverEvent.runCollection c false ::
              DriverEvent.saveState { st with lastError := some (c, msg) } ::
              (runLoop outcome continueOnError rest
                { st with lastError := some (c, msg) }).1 := by
            simp [runLoop, houtcome, hc]
          rw [he, List.cons_append, List.cons_append]
          show savesAfterRuns ((runLoop outcome continueOnError rest _).1 ++ tail) =
            true
          exact runLoop_savesAfterRuns outcome continueOnError rest _ tail h
        · have he : (runLoop outcome continueOnError (c :: rest) st).1 =
              [DriverEvent.runCollection c false,
               DriverEvent.saveState { st with lastError := some (c, msg) }] := by
            simp [runLoop, houtcome, hc]
          rw [he, List.cons_append, List.cons_append, List.nil_append]
          show savesAfterRuns tail = true
          exact h

theorem runLoop_countClear (outcome : String → Option String)
    (continueOnError : Bool) :
    ∀ (remaining : List String) (st : ExportState),
      countClear (runLoop outcome continueOnError remaining st).1 = 0
  | [], st => by simp [runLoop, countClear]
  | c :: rest, st => by
      cases houtcome : outcome c with
      | none =>
        have he : (runLoop outcome continueOnError (c :: rest) st).1 =
            DriverEvent.runCollection c true ::
            DriverEvent.saveState { st with completed := st.completed ++ [c] } ::
            (runLoop outcome continueOnError rest
              { st with completed := st.completed ++ [c] }).1 := by
          simp [runLoop, houtcome]
        rw [he, countClear_cons_run, countClear_cons_save]
        exact runLoop_countClear outcome continueOnError rest _
      | some msg =>
        by_cases hc : continueOnError = true
        · have he : (runLoop outcome continueOnError (c :: rest) st).1 =
              DriverEvent.runCollection c false ::
              DriverEvent.saveState { st with lastError := some (c, msg) } ::
              (runLoop outcome continueOnError rest
                { st with lastError := some (c, msg) }).1 := by
            simp [runLoop, houtcome, hc]
          rw [he, countClear_cons_run, countClear_cons_save]
          exact runLoop_countClear outcome continueOnError rest _
        · have he : (runLoop outcome continueOnError (c :: rest) st).1 =
              [DriverEvent.runCollection c false,
               DriverEvent.saveState { st with lastError := some (c, msg) }] := by
            simp [runLoop, houtcome, hc]
          rw [he, countClear_cons_run, countClear_cons_save]
          simp [countClear]

theorem runLoop_ok_of_not_aborted (outcome : String → Option String) :
    ∀ (remaining : List String) (st : ExportState),
      (runLoop outcome false remaining st).2.2 = false →
      ∀ c ok,
        DriverEvent.runCollection c ok ∈ (runLoop outcome false remaining st).1 →
        ok = true
  | [], st, h, c, ok, hm => by simp [runLoop] at hm
  | c0 :: rest, st, h, c, ok, hm => by
      cases houtcome : outcome c0 with
      | none =>
        have he : (runLoop outcome false (c0 :: rest) st).1 =
            DriverEvent.runCollection c0 true ::
            DriverEvent.saveState { st with completed := st.completed ++ [c0] } ::
            (runLoop outcome false rest
              { st with completed := st.completed ++ [c0] }).1 := by
          simp [runLoop, houtcome]
        have he2 : (runLoop outcome false (c0 :: rest) st).2.2 =
            (runLoop outcome false rest
              { st with completed := st.completed ++ [c0] }).2.2 := by
          simp [runLoop, houtcome]
        rw [he] at hm
        rcases List.mem_cons.mp hm with h1 | hm2
        · injection h1 with h1a h1b
        · rcases List.mem_cons.mp hm2 with h2 | hm3
          · exact absurd h2 (by simp)
          · rw [he2] at h
            exact runLoop_ok_of_not_aborted outcome rest _ h c ok hm3
      | some msg =>
        have : (runLoop outcome false (c0 :: rest) st).2.2 = true := by
          simp [runLoop, houtcome]
        rw [this] at h
        exact absurd h (by simp)

theorem savesAfterRuns_clear_cons (t : List DriverEvent) :
    savesAfterRuns (DriverEvent.clearState :: t) = savesAfterRuns t := rfl

/-- The three shapes a driver run can take: all-done-on-resume (a bare
deletion), an aborted loop, or a completed loop followed by the final
deletion. -/
theorem mainModel_shape (opts : DriverOpts) (saved0 : Option ExportState)
    (cols : List String) (outcome : String → Option String) :
    ∃ tail flag, mainModel opts saved0 cols outcome =
      ((if opts.reset ∧ saved0.isSome then [DriverEvent.clearState] else []) ++
        tail, flag) ∧
      ((tail = [DriverEvent.clearState] ∧ flag = false) ∨
       (∃ remaining st0,
          tail = (runLoop outcome opts.continueOnError remaining st0).1 ∧
          flag = true ∧
          (runLoop outcome opts.continueOnError remaining st0).2.2 = true) ∨
       (∃ remaining st0 post,
          (post = [] ∨ post = [DriverEvent.clearState]) ∧
          tail = (runLoop outcome opts.continueOnError remaining st0).1 ++ post ∧
          flag = false ∧
          (runLoop outcome opts.continueOnError remaining st0).2.2 = false)) := by
  simp only [mainModel]
  by_cases hdone : remainingOf opts (postResetSaved opts saved0)
      cols = [] ∧ resumingOf opts (postResetSaved opts saved0) cols = true
  · rw [if_pos hdone]
    exact ⟨[DriverEvent.clearState], false, rfl, Or.inl ⟨rfl, rfl⟩⟩
  · rw [if_neg hdone]
    by_cases habort : (runLoop outcome opts.continueOnError
        (remainingOf opts (postResetSaved opts saved0) cols)
        { format := opts.format,
          requestedCollections := colsOf opts (postResetSaved opts saved0) cols,
          completed := completedOf opts (postResetSaved opts saved0) cols,
          lastError := none }).2.2 = true
    · rw [if_pos habort]
      exact ⟨_, _, rfl, Or.inr (Or.inl ⟨_, _, rfl, rfl, habort⟩)⟩
    · rw [if_neg habort]
      refine ⟨_, _, by rw [List.append_assoc],
        Or.inr (Or.inr ⟨_, _, _, ?_, rfl, rfl, by simpa using habort⟩)⟩
      split
      · exact Or.inr rfl
      · exact Or.inl rfl

/-- C4 (amended): checkpoint lifecycle of the export driver.  (1) Every
collection outcome — success or failure — is immediately followed by a
durable state-file write before the loop moves on.  (2) The state file is
deleted only by a run that does not abort: an aborted run performs no
deletion beyond the explicit `--reset` one.  (3) With `continueOnError`
disabled, a non-aborted run implies every attempted collection succeeded,
recovering the claim's "full success" deletion condition; with
`continueOnError` enabled (the shipped default) the loop can finish — and
delete the state file — despite collection failures
(`driver_clearState_despite_failure`). -/
theorem driver_checkpoint_lifecycle (opts : DriverOpts)
    (saved0 : Option ExportState) (cols : List String)
    (outcome : String → Option String) :
    savesAfterRuns (mainModel opts saved0 cols outcome).1 = true ∧
    ((mainModel opts saved0 cols outcome).2 = true →
      countClear (mainModel opts saved0 cols outcome).1 =
        (if opts.reset ∧ saved0.isSome then 1 else 0)) ∧
    (opts.continueOnError = false →
      (mainModel opts saved0 cols outcome).2 = false →
      ∀ c ok,
        DriverEvent.runCollection c ok ∈ (mainModel opts saved0 cols outcome).1 →
        ok = true) := by
  obtain ⟨tail, flag, heq, hcase⟩ := mainModel_shape opts saved0 cols outcome
  have htail : savesAfterRuns tail = true := by
    rcases hcase with ⟨ht, _⟩ | ⟨remaining, st0, ht, _, _⟩ |
      ⟨remaining, st0, post, hpost, ht, _, _⟩
    · rw [ht]; rfl
    · rw [ht]
      simpa using runLoop_savesAfterRuns outcome opts.continueOnError
        remaining st0 [] rfl
    · rw [ht]
      refine runLoop_savesAfterRuns outcome opts.continueOnError
        remaining st0 post ?_
      rcases hpost with hp | hp <;> rw [hp] <;> rfl
  refine ⟨?_, ?_, ?_⟩
  · rw [heq]
    by_cases hA : opts.reset ∧ saved0.isSome
    · rw [if_pos hA, List.cons_append, List.nil_append, savesAfterRuns_clear_cons]
      exact htail
    · rw [if_neg hA, List.nil_append]
      exact htail
  · intro hflag
    rw [heq] at hflag ⊢
    rcases hcase with ⟨ht, hf⟩ | ⟨remaining, st0, ht, hf, _⟩ |
      ⟨remaining, st0, post, hpost, ht, hf, _⟩
    · rw [hf] at hflag; exact absurd hflag (by simp)
    · rw [ht, countClear_append, runLoop_countClear]
      by_cases hA : opts.reset ∧ saved0.isSome <;>
        simp [hA, countClear]
    · rw [hf] at hflag; exact absurd hflag (by simp)
  · intro hcont hflag c ok hm
    rw [heq] at hflag hm
    rcases hcase with ⟨ht, hf⟩ | ⟨remaining, st0, ht, hf, habort⟩ |
      ⟨remaining, st0, post, hpost, ht, hf, habort⟩
    · rw [ht] at hm
      by_cases hA : opts.reset ∧ saved0.isSome <;> simp [hA] at hm
    · rw [hf] at hflag; exact absurd hflag (by simp)
    · rw [ht] at hm
      rw [hcont] at habort
      have hmloop : DriverEvent.runCollection c ok ∈
          (runLoop outcome false remaining st0).1 := by
        rw [hcont] at hm
        rcases List.mem_append.mp hm with hpre | hrest
        · exfalso
          by_cases hA : opts.reset ∧ saved0.isSome <;> simp [hA] at hpre
        · rcases List.mem_append.mp hrest with hloop | hp
          · exact hloop
          · exfalso
            rcases hpost with hp2 | hp2 <;> rw [hp2] at hp <;> simp at hp
      exact runLoop_ok_of_not_aborted outcome remaining st0 habort c ok hmloop

/-- C4 counterexample: with `continueOnError` enabled (the shipped
default), a run in which collection `a` fails still ends by deleting the
state file, although `a` was never completed and no reset was requested. -/
theorem driver_clearState_despite_failure :
    mainModel ⟨false, false, "both", true⟩ none ["a", "b"]
      (fun c => if c = "a" then some "boom" else none) =
      ([.runCollection "a" false,
        .saveState ⟨"both", ["a", "b"], [], some ("a", "boom")⟩,
        .runCollection "b" true,
        .saveState ⟨"both", ["a", "b"], ["b"], some ("a", "boom")⟩,
        .clearState], false) ∧
    DriverEvent.clearState ∈
      (mainModel ⟨false, false, "both", true⟩ none ["a", "b"]
        (fun c => if c = "a" then some "boom" else none)).1 ∧
    "a" ∉ (⟨"both", ["a", "b"], ["b"], some ("a", "boom")⟩ : ExportState).completed := by
  refine ⟨?_, ?_, ?_⟩ <;> decide

/-- Witness for the amended C4: an aborting run (`continueOnError` off,
failing collection) performs no deletion, and a clean run under
`continueOnError` off attempts only successful collections. -/
theorem driver_checkpoint_lifecycle_witness :
    savesAfterRuns (mainModel ⟨false, false, "both", false⟩ none ["a"]
      (fun _ => some "boom")).1 = true ∧
    countClear (mainModel ⟨false, false, "both", false⟩ none ["a"]
      (fun _ => some "boom")).1 = 0 ∧
    (∀ c ok, DriverEvent.runCollection c ok ∈
        (mainModel ⟨false, false, "both", false⟩ none ["a"]
          (fun _ => none)).1 →
      ok = true) := by
  have h1 := driver_checkpoint_lifecycle ⟨false, false, "both", false⟩ none ["a"]
    (fun _ => some "boom")
  have h2 := driver_checkpoint_lifecycle ⟨false, false, "both", false⟩ none ["a"]
    (fun _ => none)
  refine ⟨h1.1, ?_, h2.2.2 rfl (by decide)⟩
  have hc := h1.2.1 (by decide)
  simpa using hc

/-- Two string arrays sort to the same array exactly when they are
permutations of one another (equal multisets). -/
theorem sortStrings_eq_iff (l1 l2 : List String) :
    sortStrings l1 = sortStrings l2 ↔ l1.Perm l2 := by
  constructor
  · intro h
    unfold sortStrings at h
    have p1 := List.perm_insertionSort (α := String) (· ≤ ·) l1
    have p2 := List.perm_insertionSort (α := String) (· ≤ ·) l2
    rw [h] at p1
    exact p1.symm.trans p2
  · intro h
    unfold sortStrings
    refine List.eq_of_perm_of_sorted ?_ (List.sorted_insertionSort _ l1)
      (List.sorted_insertionSort _ l2)
    exact (List.perm_insertionSort _ l1).trans
      (h.trans (List.perm_insertionSort _ l2).symm)

/-- C5 (amended): a resumed run reuses the persisted `completed` set iff
the persisted format equals the current run's format and the persisted
requested-collection sequence is a permutation of the current one (equal
multisets — what comparing the JSON of the sorted arrays tests).  On any
mismatch the persisted `completed` is ignored entirely and the run starts
from an empty completed set; the stale checkpoint is never partially
applied.  Plain set equality is not sufficient: see
`resume_set_equality_insufficient`. -/
theorem resume_compatibility (st : ExportState) (format : String)
    (cols : List String) :
    (resumeCompatible st format cols = true ↔
      st.format = format ∧ st.requestedCollections.Perm cols) ∧
    (resumeCompleted (some st) format cols =
      if st.format = format ∧ st.requestedCollections.Perm cols then
        st.completed
      else []) ∧
    (¬(st.format = format ∧ st.requestedCollections.Perm cols) →
      resumeCompleted (some st) format cols = []) := by
  have hiff : resumeCompatible st format cols = true ↔
      st.format = format ∧ st.requestedCollections.Perm cols := by
    simp [resumeCompatible, sortStrings_eq_iff]
  refine ⟨hiff, ?_, ?_⟩
  · by_cases hc : st.format = format ∧ st.requestedCollections.Perm cols
    · rw [if_pos hc]
      simp [resumeCompleted, hiff.mpr hc]
    · rw [if_neg hc]
      have : resumeCompatible st format cols = false := by
        rcases hb : resumeCompatible st format cols
        · rfl
        · exact absurd (hiff.mp hb) hc
      simp [resumeCompleted, this]
  · intro hc
    have : resumeCompatible st format cols = false := by
      rcases hb : resumeCompatible st format cols
      · rfl
      · exact absurd (hiff.mp hb) hc
    simp [resumeCompleted, this]

/-- C5 counterexample: with duplicate requests, the persisted and current
requested-collection sets can be equal as sets while resume is still
refused — the persisted completed set (here nonempty) is not reused. -/
theorem resume_set_equality_insufficient :
    (["a", "a"] : List String).toFinset = (["a"] : List String).toFinset ∧
    (⟨"both", ["a", "a"], ["a"], none⟩ : ExportState).format = "both" ∧
    resumeCompleted (some ⟨"both", ["a", "a"], ["a"], none⟩) "both" ["a"] = [] ∧
    (⟨"both", ["a", "a"], ["a"], none⟩ : ExportState).completed ≠ [] := by
  refine ⟨by decide, rfl, ?_, by decide⟩
  have hlen : sortStrings ["a", "a"] ≠ sortStrings ["a"] := by
    intro h
    have hl := congrArg List.length h
    simp [sortStrings, List.length_insertionSort] at hl
  have hb : resumeCompatible ⟨"both", ["a", "a"], ["a"], none⟩ "both" ["a"] =
      false := by
    simp [resumeCompatible, hlen]
  simp [resumeCompleted, hb]

/-- Witness for the amended C5 at a mismatching format. -/
theorem resume_compatibility_witness :
    resumeCompleted (some ⟨"both", ["x"], ["x"], none⟩) "json" ["x"] = [] :=
  (resume_compatibility ⟨"both", ["x"], ["x"], none⟩ "json" ["x"]).2.2
    (by decide)
